import Mathlib

/-!
A verification development for the flask-smorest-sqlalchemy-odata library
(`odata/odata.py`).  The Python code is shallowly embedded: the `Odata`
class's parsing pipeline (segmenter, operator matchers, field resolver,
value coercer, filter builder, orderby parser) is translated into
executable Lean definitions over the test application's data model
(`app/models.py`: `User`, `Comment`, `Role`), and the specification's
claims about that pipeline are settled as theorems.

Modelling conventions:
* Python strings are Lean `String` / `List Char`.
* `BadRequest(description=...)` is `Err.badRequest description`;
  exceptions that are not `BadRequest` (a `ValueError` from
  `datetime.strptime`, an `AttributeError` from touching
  `.property.columns` on a relationship) get their own `Err` variants.
* SQLAlchemy expressions are an explicit `Pred` syntax tree; `and_` /
  `or_` become `Pred.junc .andJ` / `Pred.junc .orJ` applied to the list
  of arguments.
* `aliased(cls)` mints a fresh alias: we model it with a counter
  threaded through the query state, so each call returns a distinct
  `Model.aliasOf cls n`.
* The recursive `_parse_segments`, whose recursive calls share one
  `enumerate` iterator and the `self.paren_depth` counter, is embedded
  as a single left-to-right scan with an explicit stack of suspended
  frames; pushing a frame corresponds to the recursive call at a
  grouping `(`, popping to its `return` at the matching `)`.
-/

namespace Odata

/-- The two junction callables `and_` and `or_` from SQLAlchemy. -/
inductive Junction where
  | andJ
  | orJ
deriving DecidableEq

/-- Column types that `_parse_value` distinguishes (`DateTime`, `Date`,
everything else passes through unchanged). -/
inductive ColType where
  | intT
  | strT
  | boolT
  | dateTimeT
  | dateT
deriving DecidableEq

/-- The entity classes of the test application (`app/models.py`). -/
inductive EntityName where
  | user
  | comment
  | role
deriving DecidableEq

/-- A mapped class or an `aliased` version of it (fresh per `aliased` call,
distinguished by the counter value at allocation). -/
inductive Model where
  | base (e : EntityName)
  | aliasOf (e : EntityName) (n : Nat)
deriving DecidableEq

/-- What `getattr(model, name)` yields: a mapped column (has `.property`
with `.columns`), a hybrid-property SQL expression (no `.property`), or a
relationship (its `.property` is a `RelationshipProperty`). -/
inductive Attr where
  | column (ty : ColType)
  | hybrid
  | rel (target : EntityName)
deriving DecidableEq

/-- An `InstrumentedAttribute` reached by `_get_field`: which model object
it was read from, under which (snake-cased) name, and what kind of
attribute it is. -/
structure FieldRef where
  model : Model
  name : String
  attr : Attr
deriving DecidableEq

/-- `datetime.strptime(value, "%Y-%m-%dT%H:%M:%S")` result. -/
structure DateTimeV where
  year : Nat
  month : Nat
  day : Nat
  hour : Nat
  minute : Nat
  second : Nat
deriving DecidableEq

/-- `datetime.date(...)` result. -/
structure DateV where
  year : Nat
  month : Nat
  day : Nat
deriving DecidableEq

/-- A coerced literal as produced by `_parse_value`: the raw string for
ordinary columns, a parsed datetime, or a parsed calendar date. -/
inductive Value where
  | str (s : String)
  | dt (v : DateTimeV)
  | date (v : DateV)
deriving DecidableEq

/-- Ordered-comparison / equality operators built by the non-function
matchers. -/
inductive CmpOp where
  | eqOp
  | neOp
  | gtOp
  | ltOp
  | geOp
  | leOp
deriving DecidableEq

/-- One atomic SQLAlchemy expression as built by the `_parse_*` builder
functions. -/
inductive Atom where
  | containsA (f : FieldRef) (v : String)
  | startswithA (f : FieldRef) (v : String)
  | endswithA (f : FieldRef) (v : String)
  | eqBool (f : FieldRef) (isEq : Bool) (v : Option Bool)
  | cmp (op : CmpOp) (f : FieldRef) (v : Value)
  | inListA (f : FieldRef) (vs : List Value)
deriving DecidableEq

/-- An SQLAlchemy boolean expression: an atomic comparison or an
`and_(...)` / `or_(...)` of a list of expressions. -/
inductive Pred where
  | atom (a : Atom)
  | junc (j : Junction) (ps : List Pred)

/-- Errors surfaced by the pipeline.  `badRequest` carries the exact
`description` string of the raised `BadRequest`. -/
inductive Err where
  | badRequest (description : String)
  | valueError (s : String)
  | attributeError
  | internal
deriving DecidableEq

/-- One `outerjoin` recorded on the query: either a plain
`query.outerjoin(field)` or the aliased form
`query.outerjoin(field.of_type(alias))` used for self-referential hops. -/
inductive Join where
  | plain (src : Model) (relName : String)
  | ofType (src : Model) (relName : String) (target : Model)
deriving DecidableEq

/-- The accumulated state of `self.query`: joins, filter criteria passed
to `query.filter(*filters)`, orderby instructions, plus the counter that
models the freshness of `aliased` calls. -/
structure QueryState where
  joins : List Join := []
  filters : List Pred := []
  order : List (FieldRef × String) := []
  aliasCtr : Nat := 0

/-- The `Segment` dataclass: a nesting layer of expression segments. -/
structure Segment where
  depth : Int
  segments : List Segment
  junction : Option Junction
  expression : Option Pred
  string : String

/-! ## The data-model registry

`getattr(model, field_name, None)` against the declared attributes of the
test application's mapped classes.  (Only the mapped / hybrid attributes
are modelled; the claims never look up dunder or framework names.) -/

/-- Attributes of `User`. -/
def userAttrs (name : String) : Option Attr :=
  match name with
  | "id" => some (.column .intT)
  | "username" => some (.column .strT)
  | "is_active" => some (.column .boolT)
  | "logins" => some (.column .intT)
  | "note" => some (.column .strT)
  | "supervisor_id" => some (.column .intT)
  | "start_date" => some (.column .dateT)
  | "created" => some (.column .dateTimeT)
  | "comments" => some (.rel .comment)
  | "roles" => some (.rel .role)
  | "reports" => some (.rel .user)
  | "supervisor" => some (.rel .user)
  | "is_supervisor" => some .hybrid
  | "username_supervisor_id" => some .hybrid
  | _ => none

/-- Attributes of `Comment`. -/
def commentAttrs (name : String) : Option Attr :=
  match name with
  | "id" => some (.column .intT)
  | "user_id" => some (.column .intT)
  | "body" => some (.column .strT)
  | "created" => some (.column .dateTimeT)
  | "user" => some (.rel .user)
  | _ => none

/-- Attributes of `Role`. -/
def roleAttrs (name : String) : Option Attr :=
  match name with
  | "id" => some (.column .intT)
  | "name" => some (.column .strT)
  | "users" => some (.rel .user)
  | _ => none

/-- Per-entity attribute lookup. -/
def entityAttrs (e : EntityName) (name : String) : Option Attr :=
  match e with
  | .user => userAttrs name
  | .comment => commentAttrs name
  | .role => roleAttrs name

/-- An alias proxies attribute access to the underlying class. -/
def modelAttrs (m : Model) (name : String) : Option Attr :=
  match m with
  | .base e => entityAttrs e name
  | .aliasOf e _ => entityAttrs e name

/-- `entity.__name__`. -/
def entityName : EntityName → String
  | .user => "User"
  | .comment => "Comment"
  | .role => "Role"

/-- `model.__name__`; an `AliasedClass` proxies `__name__` to the
underlying class. -/
def modelName : Model → String
  | .base e => entityName e
  | .aliasOf e _ => entityName e

/-! ## String helpers: `str.strip`, `stringcase.snakecase` -/

/-- Python `str.isspace` characters relevant to `strip()` / regex `\s`
(ASCII subset; filter strings are ASCII). -/
def isPySpace (c : Char) : Bool :=
  c = ' ' || c = '\t' || c = '\n' || c = '\r' || c = '\x0b' || c = '\x0c'

/-- Python `str.strip()`. -/
def pyStrip (s : String) : String :=
  ⟨(s.data.dropWhile isPySpace).reverse.dropWhile isPySpace |>.reverse⟩

/-- ASCII lowercase of one character (`str.lower` on a single char). -/
def pyLower (c : Char) : Char :=
  if 'A' ≤ c ∧ c ≤ 'Z' then Char.ofNat (c.toNat + 32) else c

/-- Python `str.lower()` (ASCII; the inputs are ASCII). -/
def pyLowerStr (s : String) : String :=
  ⟨s.data.map pyLower⟩

/-- Python `str.split(sep)` for a one-character separator: keeps empty
parts, and splitting the empty string yields one empty part. -/
def pySplitCh (sep : Char) : List Char → List (List Char)
  | [] => [[]]
  | c :: rest =>
    let r := pySplitCh sep rest
    if c = sep then [] :: r
    else
      match r with
      | h :: t => (c :: h) :: t
      | [] => [[c]]

/-- Python `str.split(sep)` on strings. -/
def pySplit (sep : Char) (s : String) : List String :=
  (pySplitCh sep s.data).map fun l => ⟨l⟩

/-- `stringcase.snakecase`:
`re.sub(r"[\-\.\s]", "_", s)`, then (if non-empty) lowercase the first
character and replace each later uppercase `c` by `_` + lowercase `c`. -/
def snakecase (s : String) : String :=
  let subbed := s.data.map fun c =>
    if c = '-' || c = '.' || isPySpace c then '_' else c
  match subbed with
  | [] => ""
  | c :: rest =>
    ⟨pyLower c :: (rest.flatMap fun d =>
      if 'A' ≤ d ∧ d ≤ 'Z' then ['_', pyLower d] else [d])⟩

/-! ## The value coercer: `_parse_value`

`datetime.strptime` compiles `%Y` to four digits, `%m` to
`1[0-2]|0[1-9]|[1-9]`, `%d` to `3[01]|[12]\d|0[1-9]|[1-9]`, `%H` to
`2[0-3]|[0-1]\d|\d`, `%M`/`%S` to `[0-5]\d|\d`; the two-digit
alternatives of each field are tried before the one-digit one, the whole
input must be consumed, and the `datetime(...)` constructor then
validates the calendar (year ≥ 1, day within the month's length). -/

/-- Numeric value of a digit character. -/
def digitVal (c : Char) : Nat := c.toNat - 48

/-- Exactly four digits (`%Y`). -/
def num4 (cs : List Char) (k : Nat → List Char → Option α) : Option α :=
  match cs with
  | a :: b :: c :: d :: rest =>
    if a.isDigit && b.isDigit && c.isDigit && d.isDigit then
      k (digitVal a * 1000 + digitVal b * 100 + digitVal c * 10 + digitVal d) rest
    else none
  | _ => none

/-- A literal character of the format string. -/
def litCh (c : Char) (cs : List Char) (k : List Char → Option α) : Option α :=
  match cs with
  | d :: rest => if d = c then k rest else none
  | [] => none

/-- A one-or-two digit numeric field whose two-digit alternatives cover
`[lo, hi]` and whose one-digit alternative covers `[lo, 9]`; two digits
are tried first, falling back (regex backtracking) to one digit if the
continuation fails. -/
def numField (lo hi : Nat) (cs : List Char) (k : Nat → List Char → Option α) :
    Option α :=
  match cs with
  | a :: b :: rest =>
    (if a.isDigit && b.isDigit &&
        decide (lo ≤ digitVal a * 10 + digitVal b) &&
        decide (digitVal a * 10 + digitVal b ≤ hi) then
      k (digitVal a * 10 + digitVal b) rest
    else none) <|>
    (if a.isDigit && decide (lo ≤ digitVal a) && decide (digitVal a ≤ 9) then
      k (digitVal a) (b :: rest)
    else none)
  | [a] =>
    if a.isDigit && decide (lo ≤ digitVal a) && decide (digitVal a ≤ 9) then
      k (digitVal a) []
    else none
  | [] => none

/-- Gregorian leap year. -/
def isLeap (y : Nat) : Bool :=
  y % 4 = 0 && (y % 100 ≠ 0 || y % 400 = 0)

/-- Days in a month (the `datetime` constructor's day bound). -/
def daysInMonth (y m : Nat) : Nat :=
  if m = 2 then (if isLeap y then 29 else 28)
  else if m = 4 || m = 6 || m = 9 || m = 11 then 30
  else 31

/-- `datetime.strptime(s, "%Y-%m-%dT%H:%M:%S")` including the
constructor's calendar validation. -/
def strptimeDateTime (s : String) : Option DateTimeV :=
  num4 s.data fun y r1 =>
  litCh '-' r1 fun r2 =>
  numField 1 12 r2 fun m r3 =>
  litCh '-' r3 fun r4 =>
  numField 1 31 r4 fun d r5 =>
  litCh 'T' r5 fun r6 =>
  numField 0 23 r6 fun hh r7 =>
  litCh ':' r7 fun r8 =>
  numField 0 59 r8 fun mm r9 =>
  litCh ':' r9 fun r10 =>
  numField 0 59 r10 fun ss r11 =>
  if r11.isEmpty && decide (1 ≤ y) && decide (d ≤ daysInMonth y m) then
    some ⟨y, m, d, hh, mm, ss⟩
  else none

/-- `datetime.date(datetime.strptime(s, "%Y-%m-%d"))`: the date-only
format, truncated to a calendar date (the parsed time is 00:00:00, so
the truncation is the identity on the date fields). -/
def strptimeDate (s : String) : Option DateV :=
  num4 s.data fun y r1 =>
  litCh '-' r1 fun r2 =>
  numField 1 12 r2 fun m r3 =>
  litCh '-' r3 fun r4 =>
  numField 1 31 r4 fun d r5 =>
  if r5.isEmpty && decide (1 ≤ y) && decide (d ≤ daysInMonth y m) then
    some ⟨y, m, d⟩
  else none

/-- `Odata._parse_value`: datetime columns parse with the fixed datetime
format, date columns with the separate date-only format (then truncate),
everything else passes the literal through.  A hybrid-property expression
has no `.property`, so it passes through; a relationship's
`RelationshipProperty` has no `.columns`, so touching it raises an
`AttributeError`. -/
def parseValue (f : FieldRef) (valueString : String) : Except Err Value :=
  match f.attr with
  | .column .dateTimeT =>
    match strptimeDateTime valueString with
    | some v => .ok (.dt v)
    | none => .error (.valueError valueString)
  | .column .dateT =>
    match strptimeDate valueString with
    | some v => .ok (.date v)
    | none => .error (.valueError valueString)
  | .column _ => .ok (.str valueString)
  | .hybrid => .ok (.str valueString)
  | .rel _ => .error .attributeError

/-! ## The field resolver: `_get_field` -/

/-- The loop of `Odata._get_field` over the snake-cased path components.
`lastName` is `clean_fields[-1]`; the Python code compares each component
to it by value, so a repeated component equal to the last one returns
early.  Non-final components must be relationships; a self-referential
hop allocates a fresh alias and joins `field.of_type(alias)`, any other
hop joins the relationship directly.  (The `[]` case is unreachable:
`str.split` never yields an empty list.) -/
def getFieldLoop (q : QueryState) (model : Model) (lastName : String) :
    List String → Except Err (FieldRef × QueryState)
  | [] => .error .internal
  | fieldName :: rest =>
    match modelAttrs model fieldName with
    | none =>
      .error (.badRequest (modelName model ++ " has no column named " ++ fieldName))
    | some attr =>
      if fieldName ≠ lastName then
        match attr with
        | .rel target =>
          if Model.base target = model then
            let aliasM := Model.aliasOf target q.aliasCtr
            getFieldLoop
              { q with
                  joins := q.joins ++ [.ofType model fieldName aliasM]
                  aliasCtr := q.aliasCtr + 1 }
              aliasM lastName rest
          else
            getFieldLoop
              { q with joins := q.joins ++ [.plain model fieldName] }
              (Model.base target) lastName rest
        | _ =>
          .error (.badRequest
            (modelName model ++ " has no relationship property named " ++ fieldName))
      else
        .ok (⟨model, fieldName, attr⟩, q)

/-- `Odata._get_field`: strip the raw input, split on `/`, snake-case
each component, then walk the components from the root model. -/
def getField (q : QueryState) (e : EntityName) (fieldInput : String) :
    Except Err (FieldRef × QueryState) :=
  let cleanFields := (pySplit '/' (pyStrip fieldInput)).map snakecase
  getFieldLoop q (.base e) (cleanFields.getLastD "") cleanFields

/-! ## Operator matchers

Each `OdataFilter` regex is implemented as a match-at-position function;
`reSearch` supplies `re.search`'s leftmost-position semantics.  Greedy
subpatterns with their backtracking behaviour are analysed per pattern:
* `(\S+)` before `\s+` always matches the maximal non-space run (giving
  characters back would place a non-space under `\s`);
* `\s+` before a non-space literal always matches the maximal space run;
* `\s+(.+)` backtracks: the maximal space run shrinks until a
  non-newline character follows;
* in `startswith\((\S+),...` the greedy `\S+` makes the split comma the
  rightmost comma (within the leading non-space run) for which the rest
  of the pattern matches, whereas `contains\(([^,]+),...` splits at the
  first comma. -/

/-- `re.search`: try the pattern at every start position, leftmost
first. -/
def reSearch (matchHere : List Char → Option β) : List Char → Option β
  | [] => matchHere []
  | c :: rest => matchHere (c :: rest) <|> reSearch matchHere rest

/-- `(.+)` at the current position (dot does not match a newline). -/
def dotPlusFrom (cs : List Char) : Option (List Char) :=
  match cs with
  | [] => none
  | c :: _ => if c = '\n' then none else some (cs.takeWhile fun d => d ≠ '\n')

/-- Backtracking tail of `\s+(.+)` once the maximal space run is split
off: shrink the run (keeping it non-empty) until `(.+)` matches. -/
def spaceGiveback : List Char → List Char → Option (List Char)
  | spRev, r =>
    match dotPlusFrom r with
    | some v => some v
    | none =>
      match spRev with
      | [] => none
      | c :: spRev' => if spRev'.isEmpty then none else spaceGiveback spRev' (c :: r)

/-- `\s+(.+)`. -/
def plusDotPlus (r : List Char) : Option (List Char) :=
  let (sp, r4) := (r.takeWhile isPySpace, r.dropWhile isPySpace)
  if sp.isEmpty then none else spaceGiveback sp.reverse r4

/-- `['\"]?([^'\"]*)['\"]?`: optionally consume one quote, then the run
of non-quote characters is group 2. -/
def eqValue (cs : List Char) : String :=
  let cs1 := match cs with
    | c :: rest => if c = '\'' || c = '"' then rest else c :: rest
    | [] => []
  ⟨cs1.takeWhile fun c => c ≠ '\'' && c ≠ '"'⟩

/-- `(\S+)\s+` followed by the two literal operator characters. -/
def tokOpTail (c1 c2 : Char) (cs : List Char) : Option (String × List Char) :=
  let (tok, r1) := (cs.takeWhile (fun c => !isPySpace c), cs.dropWhile (fun c => !isPySpace c))
  if tok.isEmpty then none else
  let (sp, r2) := (r1.takeWhile isPySpace, r1.dropWhile isPySpace)
  if sp.isEmpty then none else
  match r2 with
  | a :: b :: r3 => if a = c1 && b = c2 then some (⟨tok⟩, r3) else none
  | _ => none

/-- `(null|true|false)` as a prefix. -/
def boolLit : List Char → Option (Option Bool)
  | 'n' :: 'u' :: 'l' :: 'l' :: _ => some none
  | 't' :: 'r' :: 'u' :: 'e' :: _ => some (some true)
  | 'f' :: 'a' :: 'l' :: 's' :: 'e' :: _ => some (some false)
  | _ => none

/-- `(\S+)\s+(eq|ne)\s+(null|true|false)` at the current position. -/
def matchEqBoolHere (cs : List Char) : Option (String × Bool × Option Bool) :=
  let (tok, r1) := (cs.takeWhile (fun c => !isPySpace c), cs.dropWhile (fun c => !isPySpace c))
  if tok.isEmpty then none else
  let (sp, r2) := (r1.takeWhile isPySpace, r1.dropWhile isPySpace)
  if sp.isEmpty then none else
  let opRes : Option (Bool × List Char) :=
    match r2 with
    | 'e' :: 'q' :: r => some (true, r)
    | 'n' :: 'e' :: r => some (false, r)
    | _ => none
  match opRes with
  | none => none
  | some (isEq, r3) =>
    let r4 := r3.dropWhile isPySpace
    if (r3.takeWhile isPySpace).isEmpty then none
    else (boolLit r4).map fun v => (⟨tok⟩, isEq, v)

/-- `(\S+)\s+` + two op chars + `\s+['\"]?([^'\"]*)['\"]?` (the `eq` and
`ne` patterns). -/
def matchEqNeHere (c1 c2 : Char) (cs : List Char) : Option (String × String) :=
  match tokOpTail c1 c2 cs with
  | none => none
  | some (tok, r3) =>
    if (r3.takeWhile isPySpace).isEmpty then none
    else some (tok, eqValue (r3.dropWhile isPySpace))

/-- `(\S+)\s+` + two op chars + `\s+(.+)` (the `gt`/`lt`/`ge`/`le`
patterns). -/
def matchCmpHere (c1 c2 : Char) (cs : List Char) : Option (String × String) :=
  match tokOpTail c1 c2 cs with
  | none => none
  | some (tok, r3) =>
    match plusDotPlus r3 with
    | some v => some (tok, ⟨v⟩)
    | none => none

/-- `(\S+)\s+in\s*\(([^)]*)\)`. -/
def matchInHere (cs : List Char) : Option (String × String) :=
  match tokOpTail 'i' 'n' cs with
  | none => none
  | some (tok, r3) =>
    match r3.dropWhile isPySpace with
    | '(' :: r5 =>
      let (inner, r6) := (r5.takeWhile (fun c => c ≠ ')'), r5.dropWhile (fun c => c ≠ ')'))
      match r6 with
      | ')' :: _ => some (tok, ⟨inner⟩)
      | _ => none
    | _ => none

/-- `\s*['\"]([^'\"]*)['\"]\)` after the argument comma of a filter
function. -/
def funcValueTail (cs : List Char) : Option String :=
  match cs.dropWhile isPySpace with
  | c :: r2 =>
    if c = '\'' || c = '"' then
      let (v, r3) := (r2.takeWhile (fun d => d ≠ '\'' && d ≠ '"'),
                      r2.dropWhile (fun d => d ≠ '\'' && d ≠ '"'))
      match r3 with
      | q :: r4 =>
        if q = '\'' || q = '"' then
          match r4 with
          | ')' :: _ => some ⟨v⟩
          | _ => none
        else none
      | [] => none
    else none
  | [] => none

/-- `([^,]+),` + value tail: the `contains` argument list splits at the
first comma. -/
def containsArgs (cs : List Char) : Option (String × String) :=
  let (g1, r1) := (cs.takeWhile (fun c => c ≠ ','), cs.dropWhile (fun c => c ≠ ','))
  if g1.isEmpty then none else
  match r1 with
  | ',' :: r2 => (funcValueTail r2).map fun v => (⟨g1⟩, v)
  | _ => none

/-- `(\S+),` + value tail: the `startswith`/`endswith` argument list.
The greedy `(\S+)` splits at the rightmost comma (inside the leading
non-space run) for which the value tail matches. -/
def swArgs (cs : List Char) : Option (String × String) :=
  let run := cs.takeWhile fun c => !isPySpace c
  let rec go : List Nat → Option (String × String)
    | [] => none
    | i :: more =>
      if 1 ≤ i then
        match funcValueTail (cs.drop (i + 1)) with
        | some v => some (⟨cs.take i⟩, v)
        | none => go more
      else none
  go (((List.range run.length).filter fun i => run.getD i ' ' = ',').reverse)

/-- `contains\(([^,]+),\s*['\"]([^'\"]*)['\"]\)` at the current
position. -/
def matchContainsHere : List Char → Option (String × String)
  | 'c' :: 'o' :: 'n' :: 't' :: 'a' :: 'i' :: 'n' :: 's' :: '(' :: rest =>
    containsArgs rest
  | _ => none

/-- `startswith\((\S+),\s*['\"]([^'\"]*)['\"]\)` at the current
position. -/
def matchStartswithHere : List Char → Option (String × String)
  | 's' :: 't' :: 'a' :: 'r' :: 't' :: 's' :: 'w' :: 'i' :: 't' :: 'h' :: '(' :: rest =>
    swArgs rest
  | _ => none

/-- `endswith\((\S+),\s*['\"]([^'\"]*)['\"]\)` at the current
position. -/
def matchEndswithHere : List Char → Option (String × String)
  | 'e' :: 'n' :: 'd' :: 's' :: 'w' :: 'i' :: 't' :: 'h' :: '(' :: rest =>
    swArgs rest
  | _ => none

/-! ## Builder functions `_parse_contains` … `_parse_in` and the
dispatch `_parse_expression` -/

/-- `Odata._parse_contains`. -/
def parseContains (q : QueryState) (e : EntityName) (g1 g2 : String) :
    Except Err (Pred × QueryState) := do
  let (f, q') ← getField q e g1
  .ok (.atom (.containsA f g2), q')

/-- `Odata._parse_startswith`. -/
def parseStartswith (q : QueryState) (e : EntityName) (g1 g2 : String) :
    Except Err (Pred × QueryState) := do
  let (f, q') ← getField q e g1
  .ok (.atom (.startswithA f g2), q')

/-- `Odata._parse_endswith`. -/
def parseEndswith (q : QueryState) (e : EntityName) (g1 g2 : String) :
    Except Err (Pred × QueryState) := do
  let (f, q') ← getField q e g1
  .ok (.atom (.endswithA f g2), q')

/-- `Odata._parse_eqbool`: `__eq__`/`__ne__` against `None`, `True` or
`False`. -/
def parseEqBool (q : QueryState) (e : EntityName) (g1 : String) (isEq : Bool)
    (v : Option Bool) : Except Err (Pred × QueryState) := do
  let (f, q') ← getField q e g1
  .ok (.atom (.eqBool f isEq v), q')

/-- `Odata._parse_eq` / `Odata._parse_ne`. -/
def parseEqNe (q : QueryState) (e : EntityName) (isEq : Bool) (g1 g2 : String) :
    Except Err (Pred × QueryState) := do
  let (f, q') ← getField q e g1
  let pv ← parseValue f g2
  .ok (.atom (.cmp (if isEq then .eqOp else .neOp) f pv), q')

/-- `Odata._parse_gt` / `_parse_lt` / `_parse_ge` / `_parse_le`. -/
def parseCmp (q : QueryState) (e : EntityName) (op : CmpOp) (g1 g2 : String) :
    Except Err (Pred × QueryState) := do
  let (f, q') ← getField q e g1
  let pv ← parseValue f g2
  .ok (.atom (.cmp op f pv), q')

/-- Python `value.strip(" '\"")`: drop the characters space, single
quote, double quote from both ends. -/
def stripValueChars (s : String) : String :=
  let isStripped : Char → Bool := fun c => c = ' ' || c = '\'' || c = '"'
  ⟨(s.data.dropWhile isStripped).reverse.dropWhile isStripped |>.reverse⟩

/-- `Odata._parse_in`: split group 2 on commas, strip each value, coerce
each through `_parse_value`. -/
def parseIn (q : QueryState) (e : EntityName) (g1 g2 : String) :
    Except Err (Pred × QueryState) := do
  let (f, q') ← getField q e g1
  let vs ← (pySplit ',' g2).mapM fun v => parseValue f (stripValueChars v)
  .ok (.atom (.inListA f vs), q')

/-- Tags naming the eleven `OdataFilter` entries, in a type of their
own so the table's order can be stated. -/
inductive FilterTag where
  | containsT
  | eqboolT
  | eqT
  | neT
  | startswithT
  | endswithT
  | gtT
  | ltT
  | geT
  | leT
  | inT
deriving DecidableEq

/-- The `self.odata_filters` list built in `Odata.__init__`, in source
order: `contains`, eq/ne-bool, `eq`, `ne`, `startswith`, `endswith`,
`gt`, `lt`, `ge`, `le`, `in`. -/
def odataFiltersOrder : List FilterTag :=
  [.containsT, .eqboolT, .eqT, .neT, .startswithT, .endswithT,
   .gtT, .ltT, .geT, .leT, .inT]

/-- Run one `OdataFilter`: `none` when its regex does not match the
segment, otherwise the result of its builder (errors included). -/
def runFilterTag (q : QueryState) (e : EntityName) (s : String) :
    FilterTag → Option (Except Err (Pred × QueryState))
  | .containsT =>
    (reSearch matchContainsHere s.data).map fun g => parseContains q e g.1 g.2
  | .eqboolT =>
    (reSearch matchEqBoolHere s.data).map fun g => parseEqBool q e g.1 g.2.1 g.2.2
  | .eqT =>
    (reSearch (matchEqNeHere 'e' 'q') s.data).map fun g => parseEqNe q e true g.1 g.2
  | .neT =>
    (reSearch (matchEqNeHere 'n' 'e') s.data).map fun g => parseEqNe q e false g.1 g.2
  | .startswithT =>
    (reSearch matchStartswithHere s.data).map fun g => parseStartswith q e g.1 g.2
  | .endswithT =>
    (reSearch matchEndswithHere s.data).map fun g => parseEndswith q e g.1 g.2
  | .gtT =>
    (reSearch (matchCmpHere 'g' 't') s.data).map fun g => parseCmp q e .gtOp g.1 g.2
  | .ltT =>
    (reSearch (matchCmpHere 'l' 't') s.data).map fun g => parseCmp q e .ltOp g.1 g.2
  | .geT =>
    (reSearch (matchCmpHere 'g' 'e') s.data).map fun g => parseCmp q e .geOp g.1 g.2
  | .leT =>
    (reSearch (matchCmpHere 'l' 'e') s.data).map fun g => parseCmp q e .leOp g.1 g.2
  | .inT =>
    (reSearch matchInHere s.data).map fun g => parseIn q e g.1 g.2

/-- Try the remaining filters in order; the first whose regex matches
wins (its builder's errors propagate, later filters are not tried). -/
def parseExpressionGo (q : QueryState) (e : EntityName) (s : String) :
    List FilterTag → Except Err (Pred × QueryState)
  | [] => .error (.badRequest ("No available filter matches segment " ++ s))
  | t :: ts =>
    match runFilterTag q e s t with
    | some r => r
    | none => parseExpressionGo q e s ts

/-- `Odata._parse_expression`. -/
def parseExpression (q : QueryState) (e : EntityName) (s : String) :
    Except Err (Pred × QueryState) :=
  parseExpressionGo q e s odataFiltersOrder

/-! ## The segmenter: `_parse_segments`

The Python method is recursive, but all recursive invocations share one
`enumerate(self.filter_string)` iterator and the `self.paren_depth`
counter, so the whole parse is a single left-to-right scan.  We embed it
as exactly that: a scan with a stack of suspended frames.  Pushing a
frame models the recursive call made at a grouping `(` (the caller's
`segments`, `expression_str` and `last_junction` are saved; quotes are
necessarily closed and `filter_function` was just set `False` by the
walrus, so only those three values need saving); popping models the
`return segments` at a matching `)` (including the
`segments[-1].segments = ...` assignment in the caller). -/

/-- A suspended caller of `_parse_segments`. -/
structure FrameCtx where
  segments : List Segment
  exprStr : List Char
  lastJunction : Option Junction

/-- The scan state: the active frame's locals (`segments`,
`expression_str`, `in_quotes`, `filter_function`, `last_junction`), the
shared `self.paren_depth` and `self.query`, the stack of suspended
frames, and the characters consumed so far (reversed) for the lookback
of `_is_filter_function`. -/
structure ScanSt where
  stack : List FrameCtx
  segments : List Segment
  exprStr : List Char
  inQuotes : Option Char
  filterFunction : Bool
  lastJunction : Option Junction
  parenDepth : Int
  prevRev : List Char
  q : QueryState

/-- `_is_filter_function`: inspect the characters immediately before the
current `(`.  `self.filter_string[index - k : index]` is the last `k`
consumed characters (when fewer than `k` characters were consumed the
Python slice is shorter than the keyword and cannot equal it, and
`prevRev.take k` is likewise shorter). -/
def isFilterFunction (prevRev : List Char) : Bool :=
  prevRev.take 2 == ("in".data.reverse) ||
  prevRev.take 3 == ("in ".data.reverse) ||
  prevRev.take 8 == ("contains".data.reverse) ||
  prevRev.take 8 == ("endswith".data.reverse) ||
  prevRev.take 10 == ("startswith".data.reverse)

/-- The branch taken by the scan loop's `if`/`elif` chain for the
current character. -/
inductive StepKind where
  | quoteToggle
  | openGroup
  | openFunc
  | closeFunc
  | closeGroup
  | andTok
  | orTok
  | plain
deriving DecidableEq

/-- The loop's branch conditions, in source order: quote toggling, `(`
(classified by `_is_filter_function`), `)` (function close vs grouping
close), the 5-character window `" and "`, the 4-character window
`" or "`, and the default `expression_str += char`. -/
def classify (inQuotes : Option Char) (ff : Bool) (prevRev : List Char)
    (c : Char) (rest : List Char) : StepKind :=
  if (inQuotes = some c) ∨ (inQuotes = none ∧ (c = '\'' ∨ c = '"')) then .quoteToggle
  else if inQuotes = none ∧ c = '(' then
    (if isFilterFunction prevRev then .openFunc else .openGroup)
  else if inQuotes = none ∧ c = ')' then
    (if ff then .closeFunc else .closeGroup)
  else if inQuotes = none ∧ (c :: rest).take 5 = " and ".data then .andTok
  else if inQuotes = none ∧ (c :: rest).take 4 = " or ".data then .orTok
  else .plain

/-- `Segment()` with the dataclass defaults. -/
def segDefault : Segment := ⟨0, [], none, none, ""⟩

/-- A leaf `Segment` as appended by `_close_expression`. -/
def leafSegment (depth : Int) (junction : Option Junction) (p : Pred)
    (s : String) : Segment :=
  ⟨depth, [], junction, some p, s⟩

/-- A header / fresh group-holder `Segment` (no expression, no children
yet). -/
def headerSegment (depth : Int) (junction : Option Junction) : Segment :=
  ⟨depth, [], junction, none, ""⟩

/-- `_close_expression`: if `expression_str` is non-empty, parse it and
append a leaf `Segment`, then reset the accumulator. -/
def closeExpression (e : EntityName) (st : ScanSt) : Except Err ScanSt :=
  if st.exprStr.isEmpty then .ok { st with exprStr := [] }
  else do
    let (p, q') ← parseExpression st.q e ⟨st.exprStr⟩
    .ok { st with
      segments := st.segments ++
        [leafSegment st.parenDepth st.lastJunction p ⟨st.exprStr⟩]
      exprStr := []
      q := q' }

/-- `_validate_clean_segment`: dangling quotes, then dangling parens
(depth drift from the frame's first segment, or a pending filter
function).  (`segments` is never empty: every frame starts with a header
segment; `headD` with a default only makes the function total.) -/
def validateCleanSegment (st : ScanSt) : Except Err Unit :=
  if st.inQuotes.isSome then
    .error (.badRequest "Quotes in filter string are mismatched.")
  else if st.parenDepth ≠ (st.segments.headD segDefault).depth ∨ st.filterFunction then
    .error (.badRequest "Parentheses in filter string are mismatched.")
  else .ok ()

/-- `segments[-1].segments = child`. -/
def setLastSegments (l : List Segment) (child : List Segment) : List Segment :=
  match l with
  | [] => []
  | [s] => [⟨s.depth, child, s.junction, s.expression, s.string⟩]
  | s :: rest => s :: setLastSegments rest child

/-- Unwinding when the shared iterator is exhausted: the innermost frame
already ran its end-of-loop validation; each suspended caller receives
the child's segments (`segments[-1].segments = ...`), then its own loop
ends too, so it validates (its quotes are closed and its
`filter_function` is `False`, but `paren_depth` was never decremented on
this path, so the depth check fails whenever a frame is suspended) and
would close its leftover `expression_str`. -/
def finishFrames (e : EntityName) (parenDepth : Int) (q : QueryState) :
    List FrameCtx → List Segment → Except Err (List Segment × QueryState)
  | [], segs => .ok (segs, q)
  | ctx :: stack', segs =>
    let psegs := setLastSegments ctx.segments segs
    if parenDepth ≠ (psegs.headD segDefault).depth then
      .error (.badRequest "Parentheses in filter string are mismatched.")
    else if ctx.exprStr.isEmpty then
      finishFrames e parenDepth q stack' psegs
    else do
      let (p, q') ← parseExpression q e ⟨ctx.exprStr⟩
      finishFrames e parenDepth q' stack'
        (psegs ++ [leafSegment parenDepth ctx.lastJunction p ⟨ctx.exprStr⟩])

/-- End of input: the active frame validates, closes its pending
expression, and returns through every suspended frame. -/
def finishScan (e : EntityName) (st : ScanSt) :
    Except Err (List Segment × QueryState) := do
  let _ ← validateCleanSegment st
  let st' ← closeExpression e st
  finishFrames e st'.parenDepth st'.q st'.stack st'.segments

/-- The scan loop of `_parse_segments` (shared across all recursive
invocations).  Besides the bookkeeping, each branch consumes the
characters the Python loop consumes: one character normally, five for
`" and "`, four for `" or "`. -/
def scanIter (e : EntityName) (st : ScanSt) :
    List Char → Except Err (List Segment × QueryState)
  | [] => finishScan e st
  | c :: rest =>
    match classify st.inQuotes st.filterFunction st.prevRev c rest with
    | .quoteToggle =>
      scanIter e { st with
        inQuotes := if st.inQuotes.isSome then none else some c
        exprStr := st.exprStr ++ [c]
        prevRev := c :: st.prevRev } rest
    | .openFunc =>
      scanIter e { st with
        filterFunction := true
        exprStr := st.exprStr ++ [c]
        prevRev := c :: st.prevRev } rest
    | .openGroup =>
      let segs :=
        if (st.segments.getLastD segDefault).segments.isEmpty then st.segments
        else st.segments ++ [headerSegment st.parenDepth st.lastJunction]
      scanIter e { st with
        filterFunction := false
        stack := ⟨segs, st.exprStr, st.lastJunction⟩ :: st.stack
        segments := [headerSegment (st.parenDepth + 1) st.lastJunction]
        exprStr := []
        lastJunction := none
        parenDepth := st.parenDepth + 1
        prevRev := c :: st.prevRev } rest
    | .closeFunc =>
      scanIter e { st with
        filterFunction := false
        exprStr := st.exprStr ++ [c]
        prevRev := c :: st.prevRev } rest
    | .closeGroup => do
      let st1 ← closeExpression e st
      let _ ← validateCleanSegment st1
      match st1.stack with
      | [] => .ok (st1.segments, st1.q)
      | ctx :: stack' =>
        scanIter e { st1 with
          stack := stack'
          segments := setLastSegments ctx.segments st1.segments
          exprStr := ctx.exprStr
          lastJunction := ctx.lastJunction
          inQuotes := none
          filterFunction := false
          parenDepth := st1.parenDepth - 1
          prevRev := c :: st1.prevRev } rest
    | .andTok =>
      -- `skipping = 4`: the window check guarantees `rest` holds the four
      -- characters `a` `n` `d` and a space, so the drop of four is written
      -- as a pattern match (the fallback is unreachable)
      match rest with
      | _ :: _ :: _ :: _ :: rest4 => do
        let st1 ← closeExpression e st
        scanIter e { st1 with
          lastJunction := some .andJ
          prevRev := (" and ".data.reverse) ++ st1.prevRev } rest4
      | _ => .error .internal
    | .orTok =>
      -- `skipping = 3`: likewise `rest` holds `o` `r` and a space
      match rest with
      | _ :: _ :: _ :: rest3 => do
        let st1 ← closeExpression e st
        scanIter e { st1 with
          lastJunction := some .orJ
          prevRev := (" or ".data.reverse) ++ st1.prevRev } rest3
      | _ => .error .internal
    | .plain =>
      scanIter e { st with
        exprStr := st.exprStr ++ [c]
        prevRev := c :: st.prevRev } rest

/-- The initial frame of `_parse_segments(last_junction=and_)`: one
header segment at depth 0 with junction `and_`, then `last_junction`
reset to `None`. -/
def initScanSt (q : QueryState) : ScanSt :=
  { stack := [], segments := [headerSegment 0 (some .andJ)],
    exprStr := [], inQuotes := none, filterFunction := false,
    lastJunction := none, parenDepth := 0, prevRev := [], q := q }

/-- `self._parse_segments()` as called from `_filter_parser`. -/
def parseSegmentsTop (e : EntityName) (q : QueryState) (s : String) :
    Except Err (List Segment × QueryState) :=
  scanIter e (initScanSt q) s.data

/-! ## The expression builder: `_build_filters` -/

/-- `expressions.pop()` on a Python list takes the last element. -/
def popLast (l : List Pred) : Option Pred × List Pred :=
  match l.getLast? with
  | some p => (some p, l.dropLast)
  | none => (none, l)

/-- The tail of `_build_filters` after its segment loop: if expressions
remain, flush them under the running junction (defaulting as the source
does) and compute the outer junction returned to the caller. -/
def finalizeFilters (segments : List Segment)
    (res : List Pred × Option Junction × List Pred) : List Pred × Junction :=
  let filters := res.1
  let junction := res.2.1
  let expressions := res.2.2
  if !expressions.isEmpty then
    let outerJunction : Junction :=
      match segments.head? with
      | some s => s.junction.getD .andJ
      | none => .andJ
    let j : Junction :=
      match junction with
      | some jj => jj
      | none =>
        match segments.getLast? with
        | some s => s.junction.getD .andJ
        | none => .andJ
    (filters ++ [.junc j expressions], outerJunction)
  else
    (filters, .andJ)

mutual

/-- The recursive `_build_filters(segment.segments)` call for a nested
group (destructured for structural recursion over the nested type). -/
def childFilters : Segment → List Pred × Junction
  | ⟨_, segs, _, _, _⟩ => finalizeFilters segs (buildLoop segs none [] [])

/-- The `for segment in segments` loop of `_build_filters`, carrying the
running `junction`, `expressions` accumulator and completed `filters`
list. -/
def buildLoop : List Segment → Option Junction → List Pred → List Pred →
    List Pred × Option Junction × List Pred
  | [], junction, expressions, filters => (filters, junction, expressions)
  | seg :: rest, junction, expressions, filters =>
    let afterExpr : Option Junction × List Pred × List Pred :=
      match seg.expression with
      | none => (junction, expressions, filters)
      | some p =>
        match junction with
        | none => (seg.junction, expressions ++ [p], filters)
        | some j =>
          if some j != seg.junction && !expressions.isEmpty then
            (seg.junction, [p], filters ++ [.junc j expressions])
          else
            (some j, expressions ++ [p], filters)
    let junction1 := afterExpr.1
    let expressions1 := afterExpr.2.1
    let filters1 := afterExpr.2.2
    let expressions2 :=
      if seg.segments.isEmpty then expressions1
      else
        let inner := childFilters seg
        match popLast expressions1 with
        | (some target, dropped) =>
          dropped ++ [.junc inner.2 (target :: inner.1)]
        | (none, _) =>
          expressions1 ++ [.junc inner.2 inner.1]
    buildLoop rest junction1 expressions2 filters1

end

/-- `Odata._build_filters`: returns the completed filter list and the
outer junction (`and_` by default, else the first segment's junction). -/
def buildFilters (segments : List Segment) : List Pred × Junction :=
  finalizeFilters segments (buildLoop segments none [] [])

/-! ## Orchestration: `_filter_parser`, `_orderby_parser`, `__init__` -/

/-- `Odata._filter_parser`: parse the segments, build the filters, and
apply them all in one `query.filter(*filters)` call. -/
def filterParse (e : EntityName) (q : QueryState) (s : String) :
    Except Err QueryState := do
  let (segments, q') ← parseSegmentsTop e q s
  let filters := (buildFilters segments).1
  .ok { q' with filters := q'.filters ++ filters }

/-- `Odata._orderby_parser`. -/
def parseOrderby (e : EntityName) (q : QueryState) (orderby : String) :
    Except Err QueryState := do
  let parts := pySplit ' ' orderby
  if parts.length > 2 then
    .error (.badRequest
      "The orderby parameter should only contain [columnName direction]")
  else do
    let direction ←
      if parts.length = 2 then
        let d := pyLowerStr (parts.getD 1 "")
        if d ≠ "asc" ∧ d ≠ "desc" then
          .error (.badRequest "orderby direction can only be [asc] or [desc]")
        else
          Except.ok d
      else
        Except.ok "asc"
    let (f, q') ← getField q e (parts.headD "")
    .ok { q' with order := q'.order ++ [(f, direction)] }

/-- `Odata.__init__` restricted to its parsing work: apply the filter
parameter if it is present and truthy (a missing or empty string is
skipped), then the orderby parameter if it is not `None` (an empty
string is parsed; a missing parameter falls back to `default_orderby`,
which may itself be `None`). -/
def odataInit (e : EntityName) (filterParam orderbyParam defaultOrderby : Option String) :
    Except Err QueryState := do
  let q0 : QueryState := {}
  let q1 ←
    match filterParam with
    | some fs => if fs ≠ "" then filterParse e q0 fs else Except.ok q0
    | none => Except.ok q0
  let ob : Option String :=
    match orderbyParam with
    | some s => some s
    | none => defaultOrderby
  match ob with
  | some s => parseOrderby e q1 s
  | none => .ok q1

/-- The filter list handed to `query.filter(*filters)` for one filter
string (the whole `_filter_parser` pipeline, starting from a fresh
query). -/
def appliedFilters (e : EntityName) (s : String) : Except Err (List Pred) :=
  (filterParse e {} s).map QueryState.filters

/-! ## Evaluation semantics for predicates

The execution backend is out of scope, so atoms are evaluated through an
arbitrary valuation; `and_` / `or_` are conjunction / disjunction of
their arguments.  Two built predicates are equivalent when they evaluate
identically under every valuation of the atoms. -/

mutual

/-- Evaluate a predicate under a valuation of the atoms. -/
def evalPred (v : Atom → Bool) : Pred → Bool
  | .atom a => v a
  | .junc .andJ ps => evalConj v ps
  | .junc .orJ ps => evalDisj v ps

/-- `and_(*ps)`. -/
def evalConj (v : Atom → Bool) : List Pred → Bool
  | [] => true
  | p :: ps => evalPred v p && evalConj v ps

/-- `or_(*ps)`. -/
def evalDisj (v : Atom → Bool) : List Pred → Bool
  | [] => false
  | p :: ps => evalPred v p || evalDisj v ps

end

/-! ## Auxiliary predicates for the theorems -/

/-- `clauseSafe s rest`: scanning the characters of `s` (with `rest`
still to come) stays in the plain `expression_str += char` branch at
every position: no quote or parenthesis characters, and no position
where a `" and "` / `" or "` window begins (the windows may extend into
`rest`).  This is what makes `s` one leaf clause of the filter string
`s ++ rest`. -/
def clauseSafe : List Char → List Char → Bool
  | [], _ => true
  | c :: tl, rest =>
    !(c = '\'' || c = '"' || c = '(' || c = ')') &&
    !((c :: (tl ++ rest)).take 5 == " and ".data) &&
    !((c :: (tl ++ rest)).take 4 == " or ".data) &&
    clauseSafe tl rest

/-- `"(" + s + ")"`. -/
def parenWrap (s : String) : String := "(" ++ s ++ ")"

/-- `a + " and (" + b + " or " + c + ")"`. -/
def filterAndOr (a b c : String) : String :=
  a ++ " and (" ++ b ++ " or " ++ c ++ ")"

/-- `"(" + a + " and " + b + ") or " + c`. -/
def filterParenOr (a b c : String) : String :=
  "(" ++ a ++ " and " ++ b ++ ") or " ++ c

mutual

/-- The heads-are-headers check on one segment's children (destructured
for structural recursion over the nested type). -/
def segHeadsOk : Segment → Bool
  | ⟨_, segs, _, _, _⟩ => headsOkB segs

/-- Every nesting level of a segment forest starts with a segment whose
`expression` is `none` (the header `Segment` each `_parse_segments`
invocation creates first), recursively. -/
def headsOkB : List Segment → Bool
  | [] => true
  | s :: rest => s.expression.isNone && segHeadsOk s && restOkB rest

/-- The non-head segments of a level: only their children are
constrained. -/
def restOkB : List Segment → Bool
  | [] => true
  | s :: rest => segHeadsOk s && restOkB rest

end

/-! ## A flat reference scan

The specification describes the segmenter's input conditions in flat
terms — balanced grouping parentheses, closed quotes, recognized leaf
clauses.  `refScan` is that description as a single scan: it follows
exactly the same character classification as the segmenter but keeps no
segment tree, only the quote state, the filter-function flag, the
current leaf accumulator and the stack of suspended leaf accumulators
(whose height is the grouping depth).  A filter string is well-formed
(`wfFilter`) when this scan runs to completion cleanly: quotes closed,
no dangling grouping or function parenthesis, no stray closing
parenthesis, and every closed leaf recognized by an operator matcher. -/

/-- The flat scan state. -/
structure RefSt where
  inQuotes : Option Char
  ff : Bool
  exprStr : List Char
  pending : List (List Char)
  prevRev : List Char
  q : QueryState

/-- How a clean flat scan ends: the whole input was consumed, or a
closing parenthesis at base depth stopped it early. -/
inductive RefEnd where
  | clean
  | early
deriving DecidableEq

/-- Close the current leaf of the flat scan: it must be recognized by an
operator matcher (the builder's query-state effects are kept so the
leaves see the same alias counter as in the real scan). -/
def refClose (e : EntityName) (r : RefSt) : Except Err RefSt :=
  if r.exprStr.isEmpty then .ok r
  else do
    let (_, q') ← parseExpression r.q e ⟨r.exprStr⟩
    .ok { r with exprStr := [], q := q' }

/-- The flat reference scan. -/
def refScan (e : EntityName) (r : RefSt) : List Char → Except Err RefEnd
  | [] =>
    if r.inQuotes.isSome then
      .error (.badRequest "Quotes in filter string are mismatched.")
    else if r.ff then
      .error (.badRequest "Parentheses in filter string are mismatched.")
    else do
      let r1 ← refClose e r
      if r1.pending.isEmpty then .ok .clean
      else .error (.badRequest "Parentheses in filter string are mismatched.")
  | c :: rest =>
    match classify r.inQuotes r.ff r.prevRev c rest with
    | .quoteToggle =>
      refScan e { r with
        inQuotes := if r.inQuotes.isSome then none else some c
        exprStr := r.exprStr ++ [c]
        prevRev := c :: r.prevRev } rest
    | .openFunc =>
      refScan e { r with
        ff := true
        exprStr := r.exprStr ++ [c]
        prevRev := c :: r.prevRev } rest
    | .openGroup =>
      refScan e { r with
        ff := false
        pending := r.exprStr :: r.pending
        exprStr := []
        prevRev := c :: r.prevRev } rest
    | .closeFunc =>
      refScan e { r with
        ff := false
        exprStr := r.exprStr ++ [c]
        prevRev := c :: r.prevRev } rest
    | .closeGroup => do
      let r1 ← refClose e r
      match r1.pending with
      | [] => .ok .early
      | p :: pend' =>
        refScan e { r1 with
          pending := pend'
          exprStr := p
          inQuotes := none
          ff := false
          prevRev := c :: r1.prevRev } rest
    | .andTok =>
      match rest with
      | _ :: _ :: _ :: _ :: rest4 => do
        let r1 ← refClose e r
        refScan e { r1 with
          prevRev := (" and ".data.reverse) ++ r1.prevRev } rest4
      | _ => .error .internal
    | .orTok =>
      match rest with
      | _ :: _ :: _ :: rest3 => do
        let r1 ← refClose e r
        refScan e { r1 with
          prevRev := (" or ".data.reverse) ++ r1.prevRev } rest3
      | _ => .error .internal
    | .plain =>
      refScan e { r with
        exprStr := r.exprStr ++ [c]
        prevRev := c :: r.prevRev } rest

/-- The initial flat scan state. -/
def initRefSt (q : QueryState) : RefSt :=
  { inQuotes := none, ff := false, exprStr := [], pending := [],
    prevRev := [], q := q }

/-- A well-formed filter string (for the root entity `e`, from a fresh
query): balanced grouping parentheses, closed quotes, no dangling
filter-function parenthesis, no early stop, and every leaf clause
recognized. -/
def wfFilter (e : EntityName) (s : String) : Prop :=
  refScan e (initRefSt {}) s.data = .ok .clean

/-- The depth / shape invariant tying the real scanner's frame stack to
the flat scan: the current `paren_depth` equals the stack height, and
every suspended frame holds a non-empty segment list whose header
records that frame's entry depth. -/
def StackInv : Int → List FrameCtx → Prop
  | d, [] => d = 0
  | d, ctx :: stack' =>
    ctx.segments ≠ [] ∧
    (ctx.segments.headD segDefault).depth = d - 1 ∧
    StackInv (d - 1) stack'

/-- Alignment of a flat scan state with a real scanner state. -/
def Align (r : RefSt) (st : ScanSt) : Prop :=
  r.inQuotes = st.inQuotes ∧
  r.ff = st.filterFunction ∧
  r.exprStr = st.exprStr ∧
  r.prevRev = st.prevRev ∧
  r.q = st.q ∧
  r.pending = st.stack.map FrameCtx.exprStr ∧
  StackInv st.parenDepth st.stack ∧
  st.segments ≠ [] ∧
  (st.segments.headD segDefault).depth = st.parenDepth

/-- Outcome relation for the simulation: an error of the flat scan is
reproduced exactly by the segmenter; a clean or early flat-scan stop
means the segmenter returns some result. -/
def ScanRel : Except Err RefEnd → Except Err (List Segment × QueryState) → Prop
  | .error e1, x => x = .error e1
  | .ok _, x => ∃ out, x = .ok out

/-- The heads invariant carried through the scan: the active frame's
segment list and every suspended frame's segment list are non-empty and
satisfy the heads-are-headers check. -/
def SegInv (st : ScanSt) : Prop :=
  st.segments ≠ [] ∧ headsOkB st.segments = true ∧
  ∀ ctx ∈ st.stack, ctx.segments ≠ [] ∧ headsOkB ctx.segments = true

/-! # Theorems -/

/-! ## Scanner step lemmas -/

theorem scanIter_cons (e : EntityName) (st : ScanSt) (c : Char) (rest : List Char) :
    scanIter e st (c :: rest) =
      match classify st.inQuotes st.filterFunction st.prevRev c rest with
      | .quoteToggle =>
        scanIter e { st with
          inQuotes := if st.inQuotes.isSome then none else some c
          exprStr := st.exprStr ++ [c]
          prevRev := c :: st.prevRev } rest
      | .openFunc =>
        scanIter e { st with
          filterFunction := true
          exprStr := st.exprStr ++ [c]
          prevRev := c :: st.prevRev } rest
      | .openGroup =>
        let segs :=
          if (st.segments.getLastD segDefault).segments.isEmpty then st.segments
          else st.segments ++ [headerSegment st.parenDepth st.lastJunction]
        scanIter e { st with
          filterFunction := false
          stack := ⟨segs, st.exprStr, st.lastJunction⟩ :: st.stack
          segments := [headerSegment (st.parenDepth + 1) st.lastJunction]
          exprStr := []
          lastJunction := none
          parenDepth := st.parenDepth + 1
          prevRev := c :: st.prevRev } rest
      | .closeFunc =>
        scanIter e { st with
          filterFunction := false
          exprStr := st.exprStr ++ [c]
          prevRev := c :: st.prevRev } rest
      | .closeGroup => do
        let st1 ← closeExpression e st
        let _ ← validateCleanSegment st1
        match st1.stack with
        | [] => .ok (st1.segments, st1.q)
        | ctx :: stack' =>
          scanIter e { st1 with
            stack := stack'
            segments := setLastSegments ctx.segments st1.segments
            exprStr := ctx.exprStr
            lastJunction := ctx.lastJunction
            inQuotes := none
            filterFunction := false
            parenDepth := st1.parenDepth - 1
            prevRev := c :: st1.prevRev } rest
      | .andTok =>
        match rest with
        | _ :: _ :: _ :: _ :: rest4 => do
          let st1 ← closeExpression e st
          scanIter e { st1 with
            lastJunction := some .andJ
            prevRev := (" and ".data.reverse) ++ st1.prevRev } rest4
        | _ => .error .internal
      | .orTok =>
        match rest with
        | _ :: _ :: _ :: rest3 => do
          let st1 ← closeExpression e st
          scanIter e { st1 with
            lastJunction := some .orJ
            prevRev := (" or ".data.reverse) ++ st1.prevRev } rest3
        | _ => .error .internal
      | .plain =>
        scanIter e { st with
          exprStr := st.exprStr ++ [c]
          prevRev := c :: st.prevRev } rest := by
  match rest with
  | [] => simp only [scanIter]
  | [a] => simp only [scanIter]
  | [a, b] => simp only [scanIter]
  | [a, b, d] => simp only [scanIter]
  | a :: b :: d :: f :: tail => simp only [scanIter]

theorem scanIter_step_plain (e : EntityName) (st : ScanSt) (c : Char)
    (rest : List Char)
    (h : classify st.inQuotes st.filterFunction st.prevRev c rest = .plain) :
    scanIter e st (c :: rest) =
      scanIter e { st with
        exprStr := st.exprStr ++ [c]
        prevRev := c :: st.prevRev } rest := by
  have hc := scanIter_cons e st c rest
  rw [h] at hc
  exact hc

theorem scan_clause (e : EntityName) (s : List Char) :
    ∀ (rest : List Char) (st : ScanSt),
    st.inQuotes = none →
    clauseSafe s rest = true →
    scanIter e st (s ++ rest) =
      scanIter e { st with
        exprStr := st.exprStr ++ s
        prevRev := s.reverse ++ st.prevRev } rest := by
  induction s with
  | nil =>
    intro rest st h1 _
    simp
  | cons c tl ih =>
    intro rest st h1 h2
    simp only [clauseSafe, Bool.and_eq_true, Bool.not_eq_true'] at h2
    obtain ⟨⟨⟨hc, hand⟩, hor⟩, hrest⟩ := h2
    simp only [Bool.or_eq_false_iff, decide_eq_false_iff_not] at hc
    rw [beq_eq_false_iff_ne] at hand hor
    have hand2 : ¬(c = ' ' ∧ List.take 4 (tl ++ rest) = ['a', 'n', 'd', ' ']) := by
      rintro ⟨h5, h6⟩
      exact hand (by subst h5; simp [List.take_succ_cons, h6])
    have hor2 : ¬(c = ' ' ∧ List.take 3 (tl ++ rest) = ['o', 'r', ' ']) := by
      rintro ⟨h5, h6⟩
      exact hor (by subst h5; simp [List.take_succ_cons, h6])
    have hcl : classify st.inQuotes st.filterFunction st.prevRev c (tl ++ rest) = .plain := by
      unfold classify
      rw [h1]
      simp [hc, hand2, hor2]
    show scanIter e st (c :: (tl ++ rest)) = _
    rw [scanIter_step_plain e st c (tl ++ rest) hcl]
    rw [ih rest _ (by simp [h1]) hrest]
    congr 1
    simp [List.append_assoc]

/-- Bind on a successful `Except` computation (do-notation reduction). -/
@[simp] theorem exceptBindOk {α β : Type} (a : α) (f : α → Except Err β) :
    ((Except.ok a : Except Err α) >>= f) = f a := rfl

/-- Bind on a failed `Except` computation. -/
@[simp] theorem exceptBindError {α β : Type} (err : Err) (f : α → Except Err β) :
    ((Except.error err : Except Err α) >>= f) = .error err := rfl

/-- Map over a successful `Except` computation. -/
@[simp] theorem exceptMapOk {α β : Type} (f : α → β) (a : α) :
    Except.map f (Except.ok a : Except Err α) = .ok (f a) := rfl

/-- Map over a failed `Except` computation. -/
@[simp] theorem exceptMapError {α β : Type} (f : α → β) (err : Err) :
    Except.map f (Except.error err : Except Err α) = .error err := rfl

theorem scanIter_step_openGroup (e : EntityName) (st : ScanSt) (c : Char)
    (rest : List Char)
    (h : classify st.inQuotes st.filterFunction st.prevRev c rest = .openGroup) :
    scanIter e st (c :: rest) =
      scanIter e { st with
        filterFunction := false
        stack := ⟨(if (st.segments.getLastD segDefault).segments.isEmpty then st.segments
                   else st.segments ++ [headerSegment st.parenDepth st.lastJunction]),
                  st.exprStr, st.lastJunction⟩ :: st.stack
        segments := [headerSegment (st.parenDepth + 1) st.lastJunction]
        exprStr := []
        lastJunction := none
        parenDepth := st.parenDepth + 1
        prevRev := c :: st.prevRev } rest := by
  have hc := scanIter_cons e st c rest
  rw [h] at hc
  exact hc

theorem scanIter_step_closeGroup (e : EntityName) (st : ScanSt) (c : Char)
    (rest : List Char)
    (h : classify st.inQuotes st.filterFunction st.prevRev c rest = .closeGroup) :
    scanIter e st (c :: rest) = (do
      let st1 ← closeExpression e st
      let _ ← validateCleanSegment st1
      match st1.stack with
      | [] => .ok (st1.segments, st1.q)
      | ctx :: stack' =>
        scanIter e { st1 with
          stack := stack'
          segments := setLastSegments ctx.segments st1.segments
          exprStr := ctx.exprStr
          lastJunction := ctx.lastJunction
          inQuotes := none
          filterFunction := false
          parenDepth := st1.parenDepth - 1
          prevRev := c :: st1.prevRev } rest) := by
  have hc := scanIter_cons e st c rest
  rw [h] at hc
  exact hc

theorem scanIter_step_andTok (e : EntityName) (st : ScanSt) (c r1 r2 r3 r4 : Char)
    (rest4 : List Char)
    (h : classify st.inQuotes st.filterFunction st.prevRev c
      (r1 :: r2 :: r3 :: r4 :: rest4) = .andTok) :
    scanIter e st (c :: r1 :: r2 :: r3 :: r4 :: rest4) = (do
      let st1 ← closeExpression e st
      scanIter e { st1 with
        lastJunction := some .andJ
        prevRev := (" and ".data.reverse) ++ st1.prevRev } rest4) := by
  have hc := scanIter_cons e st c (r1 :: r2 :: r3 :: r4 :: rest4)
  rw [h] at hc
  exact hc

theorem scanIter_step_orTok (e : EntityName) (st : ScanSt) (c r1 r2 r3 : Char)
    (rest3 : List Char)
    (h : classify st.inQuotes st.filterFunction st.prevRev c
      (r1 :: r2 :: r3 :: rest3) = .orTok) :
    scanIter e st (c :: r1 :: r2 :: r3 :: rest3) = (do
      let st1 ← closeExpression e st
      scanIter e { st1 with
        lastJunction := some .orJ
        prevRev := (" or ".data.reverse) ++ st1.prevRev } rest3) := by
  have hc := scanIter_cons e st c (r1 :: r2 :: r3 :: rest3)
  rw [h] at hc
  exact hc

/-! ## C9 — redundant grouping parentheses -/

/-- C9: for a single recognized leaf clause, the filter strings `cl` and
`(cl)` both succeed; the parenthesized form wraps the predicate in two
extra (semantically transparent) one-element `and_` layers, so the two
applied filter lists are equivalent under every valuation. -/
theorem c9_redundant_parens (e : EntityName) (cl : String) (p : Pred) (q1 : QueryState)
    (hne : cl.data ≠ [])
    (hs0 : clauseSafe cl.data [] = true)
    (hs1 : clauseSafe cl.data [')'] = true)
    (hparse : parseExpression {} e cl = .ok (p, q1))
    (hqf : q1.filters = []) :
    appliedFilters e cl = .ok [.junc .andJ [p]] ∧
    appliedFilters e (parenWrap cl) =
      .ok [.junc .andJ [.junc .andJ [.junc .andJ [p]]]] ∧
    ∀ v, evalConj v [.junc .andJ [p]] =
      evalConj v [.junc .andJ [.junc .andJ [.junc .andJ [p]]]] := by
  have hisEmpty : cl.data.isEmpty = false := by
    cases h : cl.data
    · exact absurd h hne
    · rfl
  have hmk : ({ data := cl.data } : String) = cl := rfl
  refine ⟨?_, ?_, ?_⟩
  · unfold appliedFilters filterParse parseSegmentsTop
    rw [← List.append_nil cl.data]
    rw [scan_clause e cl.data [] (initScanSt {}) rfl hs0]
    simp only [scanIter]
    simp [initScanSt, finishScan, validateCleanSegment, closeExpression, hne, hmk,
      hparse, finishFrames, buildFilters, buildLoop, childFilters, finalizeFilters,
      popLast, hqf, segDefault, headerSegment, leafSegment, Except.map, Except.bind]
  · unfold appliedFilters filterParse parseSegmentsTop
    have hdata : (parenWrap cl).data = '(' :: (cl.data ++ [')']) := by
      simp [parenWrap]
    rw [hdata]
    rw [scanIter_step_openGroup e _ '(' (cl.data ++ [')']) (by rfl)]
    rw [scan_clause e cl.data [')'] _ rfl hs1]
    rw [scanIter_step_closeGroup e _ ')' [] (by rfl)]
    simp only [closeExpression, initScanSt]
    simp only [List.nil_append]
    rw [show ({ data := cl.data } : String) = cl from rfl]
    simp [hne, hparse, validateCleanSegment, setLastSegments, Except.bind,
      headerSegment, segDefault]
    simp only [scanIter]
    simp [initScanSt, finishScan, validateCleanSegment, closeExpression, hne, hmk,
      hparse, finishFrames, buildFilters, buildLoop, childFilters, finalizeFilters,
      popLast, hqf, segDefault, headerSegment, leafSegment, setLastSegments,
      Except.map, Except.bind]
  · intro v
    simp [evalConj, evalPred]

/-- Witness for C9 at the concrete clause `logins gt 51`. -/
theorem c9_redundant_parens_witness :
    appliedFilters .user "logins gt 51" =
      .ok [.junc .andJ
        [.atom (.cmp .gtOp ⟨.base .user, "logins", .column .intT⟩ (.str "51"))]] ∧
    appliedFilters .user (parenWrap "logins gt 51") =
      .ok [.junc .andJ [.junc .andJ [.junc .andJ
        [.atom (.cmp .gtOp ⟨.base .user, "logins", .column .intT⟩ (.str "51"))]]]] ∧
    ∀ v, evalConj v [.junc .andJ
        [.atom (.cmp .gtOp ⟨.base .user, "logins", .column .intT⟩ (.str "51"))]] =
      evalConj v [.junc .andJ [.junc .andJ [.junc .andJ
        [.atom (.cmp .gtOp ⟨.base .user, "logins", .column .intT⟩ (.str "51"))]]]] :=
  c9_redundant_parens .user "logins gt 51"
    (.atom (.cmp .gtOp ⟨.base .user, "logins", .column .intT⟩ (.str "51"))) {}
    (by decide) (by decide) (by decide) (by rfl) (by rfl)

theorem closeExpression_parses (e : EntityName) (st : ScanSt) (p : Pred)
    (q' : QueryState) (hne : st.exprStr.isEmpty = false)
    (hp : parseExpression st.q e ⟨st.exprStr⟩ = .ok (p, q')) :
    closeExpression e st = .ok { st with
      segments := st.segments ++
        [leafSegment st.parenDepth st.lastJunction p ⟨st.exprStr⟩]
      exprStr := []
      q := q' } := by
  unfold closeExpression
  rw [hne]
  simp [hp]

theorem closeExpression_empty (e : EntityName) (st : ScanSt)
    (h : st.exprStr.isEmpty = true) :
    closeExpression e st = .ok { st with exprStr := [] } := by
  unfold closeExpression
  rw [h]
  rfl

theorem scanIter_step_closeGroup_pop (e : EntityName) (st : ScanSt) (c : Char)
    (rest : List Char) (p : Pred) (q' : QueryState) (ctx : FrameCtx)
    (stack' : List FrameCtx)
    (h : classify st.inQuotes st.filterFunction st.prevRev c rest = .closeGroup)
    (hne : st.exprStr.isEmpty = false)
    (hp : parseExpression st.q e ⟨st.exprStr⟩ = .ok (p, q'))
    (hval : validateCleanSegment { st with
      segments := st.segments ++
        [leafSegment st.parenDepth st.lastJunction p ⟨st.exprStr⟩]
      exprStr := []
      q := q' } = .ok ())
    (hstack : st.stack = ctx :: stack') :
    scanIter e st (c :: rest) =
      scanIter e { st with
        stack := stack'
        segments := setLastSegments ctx.segments (st.segments ++
          [leafSegment st.parenDepth st.lastJunction p ⟨st.exprStr⟩])
        exprStr := ctx.exprStr
        lastJunction := ctx.lastJunction
        inQuotes := none
        filterFunction := false
        parenDepth := st.parenDepth - 1
        prevRev := c :: st.prevRev
        q := q' } rest := by
  rw [scanIter_step_closeGroup e st c rest h]
  rw [closeExpression_parses e st p q' hne hp]
  simp only [exceptBindOk]
  rw [hval]
  simp only [exceptBindOk]
  simp only [hstack]

/-! ## C1 — AND/OR nesting -/

/-- C1: for three recognized leaf clauses, `a and (b or c)` builds the
predicate `and_(a, or_(b, c))` (inside the builder's outer one-element
`and_` wrapper): the nested group's predicate is combined with the
immediately preceding clause under the junction written before the
group.  `(a and b) or c` instead builds `or_(and_(and_(a, b)), c)`.
Their evaluations are `a AND (b OR c)` and `(a AND b) OR c`
respectively. -/
theorem c1_and_or_nesting (e : EntityName) (a b c : String)
    (pa pb pc : Pred) (q1 q2 q3 : QueryState)
    (hna : a.data.isEmpty = false) (hnb : b.data.isEmpty = false)
    (hnc : c.data.isEmpty = false)
    (hsa1 : clauseSafe a.data (" and (" ++ b ++ " or " ++ c ++ ")").data = true)
    (hsb1 : clauseSafe b.data (" or " ++ c ++ ")").data = true)
    (hsc1 : clauseSafe c.data [')'] = true)
    (hsa2 : clauseSafe a.data (" and " ++ b ++ ") or " ++ c).data = true)
    (hsb2 : clauseSafe b.data (") or " ++ c).data = true)
    (hsc2 : clauseSafe c.data [] = true)
    (hpa : parseExpression {} e a = .ok (pa, q1))
    (hpb : parseExpression q1 e b = .ok (pb, q2))
    (hpc : parseExpression q2 e c = .ok (pc, q3))
    (hq3 : q3.filters = []) :
    appliedFilters e (filterAndOr a b c) =
      .ok [.junc .andJ [.junc .andJ [pa, .junc .orJ [pb, pc]]]] ∧
    appliedFilters e (filterParenOr a b c) =
      .ok [.junc .orJ [.junc .andJ [.junc .andJ [pa, pb]], pc]] ∧
    (∀ v, evalConj v [.junc .andJ [.junc .andJ [pa, .junc .orJ [pb, pc]]]] =
        (evalPred v pa && (evalPred v pb || evalPred v pc))) ∧
    (∀ v, evalConj v [.junc .orJ [.junc .andJ [.junc .andJ [pa, pb]], pc]] =
        ((evalPred v pa && evalPred v pb) || evalPred v pc)) ∧
    ([Pred.junc .andJ [.junc .andJ [pa, .junc .orJ [pb, pc]]]] ≠
      [Pred.junc .orJ [.junc .andJ [.junc .andJ [pa, pb]], pc]]) := by
  have hdA : (" and (" : String).data =
      ' ' :: 'a' :: 'n' :: 'd' :: ' ' :: '(' :: ([] : List Char) := rfl
  have hdO : (" or " : String).data = ' ' :: 'o' :: 'r' :: ' ' :: ([] : List Char) := rfl
  have hdP : (")" : String).data = ')' :: ([] : List Char) := rfl
  have hdPO : (") or " : String).data =
      ')' :: ' ' :: 'o' :: 'r' :: ' ' :: ([] : List Char) := rfl
  have hdAnd : (" and " : String).data =
      ' ' :: 'a' :: 'n' :: 'd' :: ' ' :: ([] : List Char) := rfl
  refine ⟨?_, ?_, ?_, ?_, ?_⟩
  · unfold appliedFilters filterParse parseSegmentsTop
    simp only [filterAndOr, String.data_append, hdA, hdO, hdP, List.cons_append,
      List.nil_append, List.append_assoc]
    simp only [String.data_append, hdO, hdP, List.cons_append, List.nil_append,
      List.append_assoc] at hsa1 hsb1
    rw [scan_clause e a.data _ (initScanSt {}) rfl hsa1]
    rw [scanIter_step_andTok e _ ' ' 'a' 'n' 'd' ' ' _ (by rfl)]
    rw [closeExpression_parses e _ pa q1 hna hpa]
    simp only [exceptBindOk]
    rw [scanIter_step_openGroup e _ '(' _ (by rfl)]
    rw [scan_clause e b.data _ _ rfl hsb1]
    rw [scanIter_step_orTok e _ ' ' 'o' 'r' ' ' _ (by rfl)]
    rw [closeExpression_parses e _ pb q2 hnb hpb]
    simp only [exceptBindOk]
    rw [scan_clause e c.data _ _ rfl hsc1]
    rw [scanIter_step_closeGroup e _ ')' [] (by rfl)]
    rw [closeExpression_parses e _ pc q3 hnc hpc]
    simp only [exceptBindOk]
    simp only [validateCleanSegment, headerSegment, segDefault, leafSegment]
    simp only [scanIter]
    simp [finishScan, validateCleanSegment, closeExpression, finishFrames,
      setLastSegments, buildFilters, buildLoop, childFilters, finalizeFilters,
      popLast, hq3, headerSegment, leafSegment, segDefault, initScanSt]
  · unfold appliedFilters filterParse parseSegmentsTop
    simp only [filterParenOr, String.data_append, hdAnd, hdPO, List.cons_append,
      List.nil_append, List.append_assoc]
    simp only [String.data_append, hdAnd, hdPO, List.cons_append, List.nil_append,
      List.append_assoc] at hsa2 hsb2
    rw [scanIter_step_openGroup e _ '(' _ (by rfl)]
    rw [scan_clause e a.data _ _ rfl hsa2]
    rw [scanIter_step_andTok e _ ' ' 'a' 'n' 'd' ' ' _ (by rfl)]
    rw [closeExpression_parses e _ pa q1 hna hpa]
    simp only [exceptBindOk]
    rw [scan_clause e b.data _ _ rfl hsb2]
    rw [scanIter_step_closeGroup_pop e _ ')' _ pb q2 _ _ (by rfl) hnb hpb (by rfl) rfl]
    rw [scanIter_step_orTok e _ ' ' 'o' 'r' ' ' _ (by rfl)]
    rw [closeExpression_empty e _ (by rfl)]
    simp only [exceptBindOk]
    rw [← List.append_nil c.data]
    rw [scan_clause e c.data _ _ rfl hsc2]
    simp only [scanIter]
    have hmkC : ({ data := c.data } : String) = c := rfl
    simp [finishScan, validateCleanSegment, closeExpression, finishFrames,
      setLastSegments, buildFilters, buildLoop, childFilters, finalizeFilters,
      popLast, hq3, hnc, hmkC, hpc, headerSegment, leafSegment, segDefault,
      initScanSt]
  · intro v
    simp [evalConj, evalPred, evalDisj]
  · intro v
    simp [evalConj, evalPred, evalDisj]
  · intro h
    simp only [List.cons.injEq, Pred.junc.injEq, and_true] at h
    exact Junction.noConfusion h.1

/-- Witness for C1 at the concrete clauses `logins gt 51`, `id eq 1`,
`id eq 2`. -/
theorem c1_and_or_nesting_witness :
    appliedFilters .user (filterAndOr "logins gt 51" "id eq 1" "id eq 2") =
      .ok [.junc .andJ [.junc .andJ
        [.atom (.cmp .gtOp ⟨.base .user, "logins", .column .intT⟩ (.str "51")),
         .junc .orJ
          [.atom (.cmp .eqOp ⟨.base .user, "id", .column .intT⟩ (.str "1")),
           .atom (.cmp .eqOp ⟨.base .user, "id", .column .intT⟩ (.str "2"))]]]] ∧
    appliedFilters .user (filterParenOr "logins gt 51" "id eq 1" "id eq 2") =
      .ok [.junc .orJ [.junc .andJ [.junc .andJ
        [.atom (.cmp .gtOp ⟨.base .user, "logins", .column .intT⟩ (.str "51")),
         .atom (.cmp .eqOp ⟨.base .user, "id", .column .intT⟩ (.str "1"))]],
         .atom (.cmp .eqOp ⟨.base .user, "id", .column .intT⟩ (.str "2"))]] :=
  ⟨(c1_and_or_nesting .user "logins gt 51" "id eq 1" "id eq 2"
      (.atom (.cmp .gtOp ⟨.base .user, "logins", .column .intT⟩ (.str "51")))
      (.atom (.cmp .eqOp ⟨.base .user, "id", .column .intT⟩ (.str "1")))
      (.atom (.cmp .eqOp ⟨.base .user, "id", .column .intT⟩ (.str "2")))
      {} {} {}
      (by rfl) (by rfl) (by rfl)
      (by decide) (by decide) (by decide) (by decide) (by decide) (by decide)
      (by rfl) (by rfl) (by rfl) (by rfl)).1,
   (c1_and_or_nesting .user "logins gt 51" "id eq 1" "id eq 2"
      (.atom (.cmp .gtOp ⟨.base .user, "logins", .column .intT⟩ (.str "51")))
      (.atom (.cmp .eqOp ⟨.base .user, "id", .column .intT⟩ (.str "1")))
      (.atom (.cmp .eqOp ⟨.base .user, "id", .column .intT⟩ (.str "2")))
      {} {} {}
      (by rfl) (by rfl) (by rfl)
      (by decide) (by decide) (by decide) (by decide) (by decide) (by decide)
      (by rfl) (by rfl) (by rfl) (by rfl)).2.1⟩

/-! ## C10 — empty filter vs empty orderby -/

/-- C10: the empty string is not treated uniformly across the two query
parameters.  An empty filter string is falsy, so `__init__` skips the
filter pass entirely (the result is identical to having no filter
parameter at all); an empty orderby string is not `None`, so it is
parsed: its single empty token is snake-cased to `""`, looked up as a
field, and rejected with "`<Entity>` has no column named " (empty field
name). -/
theorem c10_empty_string_asymmetry :
    (∀ (e : EntityName) (ob dob : Option String),
      odataInit e (some "") ob dob = odataInit e none ob dob) ∧
    (∀ (e : EntityName) (dob : Option String),
      odataInit e none (some "") dob =
        .error (.badRequest (entityName e ++ " has no column named "))) := by
  constructor
  · intro e ob dob
    rfl
  · intro e dob
    cases e <;> rfl

/-! ## C7 — field resolver error messages -/

/-- C7 counterexample: resolving the single-component path
`"supervisor"` on `User` — an attribute that exists but is a
relationship, not a column — succeeds and returns the relationship
attribute; `_get_field` does not fail with "User has no column named
supervisor" as the claim requires (the final component is returned
without any column check). -/
theorem c7_counterexample :
    getField {} .user "supervisor" =
      .ok (⟨.base .user, "supervisor", .rel .user⟩, {}) ∧
    getField {} .user "supervisor" ≠
      .error (.badRequest "User has no column named supervisor") := by
  constructor
  · rfl
  · intro h
    rw [show getField {} .user "supervisor" =
        .ok (⟨.base .user, "supervisor", .rel .user⟩, {}) from rfl] at h
    exact Except.noConfusion h

/-- C7 amended: the "has no column named" error fires exactly when a
component (final or not) does not exist on the current entity; an
existing non-final component that is not a relationship (a column or a
hybrid property) fails with "has no relationship property named"; and a
final component that exists is returned without error even when it is a
relationship. -/
theorem c7_field_errors (q : QueryState) (model : Model) (lastName c : String)
    (rest : List String) :
    (modelAttrs model c = none →
      getFieldLoop q model lastName (c :: rest) =
        .error (.badRequest (modelName model ++ " has no column named " ++ c))) ∧
    (∀ ty, modelAttrs model c = some (.column ty) → c ≠ lastName →
      getFieldLoop q model lastName (c :: rest) =
        .error (.badRequest
          (modelName model ++ " has no relationship property named " ++ c))) ∧
    (modelAttrs model c = some .hybrid → c ≠ lastName →
      getFieldLoop q model lastName (c :: rest) =
        .error (.badRequest
          (modelName model ++ " has no relationship property named " ++ c))) ∧
    (∀ attr, modelAttrs model c = some attr → c = lastName →
      getFieldLoop q model lastName (c :: rest) = .ok (⟨model, c, attr⟩, q)) := by
  refine ⟨?_, ?_, ?_, ?_⟩
  · intro h
    simp [getFieldLoop, h]
  · intro ty h hne
    simp [getFieldLoop, h, hne]
  · intro h hne
    simp [getFieldLoop, h, hne]
  · intro attr h heq
    subst heq
    simp [getFieldLoop, h]

/-- C7 witness: each branch of `c7_field_errors` applied at a concrete
input (matching the repository's own test expectations for the first
three). -/
theorem c7_field_errors_witness :
    getFieldLoop {} (.base .comment) "username" ["body", "username"] =
      .error (.badRequest "Comment has no relationship property named body") ∧
    getFieldLoop {} (.base .user) "nope" ["nope"] =
      .error (.badRequest "User has no column named nope") ∧
    getFieldLoop {} (.base .user) "username" ["is_supervisor", "username"] =
      .error (.badRequest "User has no relationship property named is_supervisor") ∧
    getFieldLoop {} (.base .user) "supervisor" ["supervisor"] =
      .ok (⟨.base .user, "supervisor", .rel .user⟩, {}) := by
  refine ⟨?_, ?_, ?_, ?_⟩
  · exact (c7_field_errors {} (.base .comment) "username" "body" ["username"]).2.1
      .strT rfl (by decide)
  · exact (c7_field_errors {} (.base .user) "nope" "nope" []).1 rfl
  · exact (c7_field_errors {} (.base .user) "username" "is_supervisor"
      ["username"]).2.2.1 rfl (by decide)
  · exact (c7_field_errors {} (.base .user) "supervisor" "supervisor" []).2.2.2
      (.rel .user) rfl rfl

/-! ## C8 — self-referential relationship aliasing -/

/-- C8: a two-component path whose first hop is a relationship targeting
the current entity itself resolves without an invalid-relationship-step
error; the join is emitted in the `field.of_type(alias)` form against a
freshly allocated alias, which is distinct from the base entity. -/
theorem c8_self_referential_alias (q : QueryState) (e : EntityName)
    (s r f : String) (attr : Attr)
    (hclean : (pySplit '/' (pyStrip s)).map snakecase = [r, f])
    (hrel : entityAttrs e r = some (.rel e))
    (hneq : r ≠ f)
    (hattr : entityAttrs e f = some attr) :
    getField q e s =
      .ok (⟨.aliasOf e q.aliasCtr, f, attr⟩,
        { q with
          joins := q.joins ++ [.ofType (.base e) r (.aliasOf e q.aliasCtr)]
          aliasCtr := q.aliasCtr + 1 }) ∧
    Model.aliasOf e q.aliasCtr ≠ .base e := by
  constructor
  · unfold getField
    rw [hclean]
    simp [getFieldLoop, modelAttrs, hrel, hneq, hattr]
  · intro h
    exact Model.noConfusion h

/-- C8 witness: the repository's self-referential example
`supervisor/username` on `User`. -/
theorem c8_self_referential_alias_witness :
    getField {} .user "supervisor/username" =
      .ok (⟨.aliasOf .user 0, "username", .column .strT⟩,
        { joins := [.ofType (.base .user) "supervisor" (.aliasOf .user 0)],
          aliasCtr := 1 }) ∧
    Model.aliasOf .user 0 ≠ .base .user := by
  have h := c8_self_referential_alias {} .user "supervisor/username"
    "supervisor" "username" (.column .strT) (by rfl) rfl (by decide) rfl
  exact ⟨h.1, h.2⟩

/-! ## C5 — matcher table order -/

/-- C5 counterexample: the `in` matcher is the last entry of
`odata_filters`, positioned after the generic `eq` and `ne` matchers —
the claim that every function-style pattern (`contains` and `in`)
precedes `eq`/`ne` is false for `in`. -/
theorem c5_counterexample :
    odataFiltersOrder.indexOf FilterTag.inT > odataFiltersOrder.indexOf .eqT ∧
    odataFiltersOrder.indexOf FilterTag.inT > odataFiltersOrder.indexOf .neT := by
  decide

/-- C5 amended: `contains` does precede `eq` and `ne` (it is first), but
`in` comes after them, as the last entry.  Consequently an `in` clause
whose argument-list text contains an `eq`-pattern match is claimed by
the `eq` matcher first (here binding the nonsense field `('a`), while an
`in` clause without such text still reaches the `in` matcher, because
the `eq`/`ne` regexes require a whitespace-delimited `eq`/`ne` token. -/
theorem c5_order_amended :
    odataFiltersOrder.indexOf FilterTag.containsT < odataFiltersOrder.indexOf .eqT ∧
    odataFiltersOrder.indexOf FilterTag.containsT < odataFiltersOrder.indexOf .neT ∧
    odataFiltersOrder.indexOf FilterTag.eqT < odataFiltersOrder.indexOf .inT ∧
    parseExpression {} .user "note in ('a eq b','c')" =
      .error (.badRequest "User has no column named ('a") ∧
    parseExpression {} .user "id in (1,3)" =
      .ok (.atom (.inListA ⟨.base .user, "id", .column .intT⟩
        [.str "1", .str "3"]), {}) := by
  refine ⟨by decide, by decide, by decide, by rfl, by rfl⟩

/-! ## C6 — date-only literal coercion -/

/-- C6 counterexample: the literal `2021-06-15T12:30:00` in the fixed
datetime format is accepted for the datetime column `created` but
rejected for the date column `start_date` — date fields do not parse
the datetime format; they use the separate `%Y-%m-%d` format. -/
theorem c6_counterexample :
    parseValue ⟨.base .user, "created", .column .dateTimeT⟩
        "2021-06-15T12:30:00" = .ok (.dt ⟨2021, 6, 15, 12, 30, 0⟩) ∧
    parseValue ⟨.base .user, "start_date", .column .dateT⟩
        "2021-06-15T12:30:00" = .error (.valueError "2021-06-15T12:30:00") := by
  exact ⟨rfl, rfl⟩

/-- A successful `num4` hands its continuation a remainder exactly four
characters shorter. -/
theorem num4_bound {α : Type} {cs : List Char} {k : Nat → List Char → Option α}
    {a : α} (h : num4 cs k = some a) :
    ∃ n rest, k n rest = some a ∧ rest.length + 4 = cs.length := by
  match cs with
  | [] => simp [num4] at h
  | [c1] => simp [num4] at h
  | [c1, c2] => simp [num4] at h
  | [c1, c2, c3] => simp [num4] at h
  | c1 :: c2 :: c3 :: c4 :: rest =>
    simp only [num4] at h
    split at h
    · exact ⟨_, rest, h, by simp⟩
    · exact absurd h (by simp)

/-- A successful `litCh` hands its continuation a remainder exactly one
character shorter. -/
theorem litCh_bound {α : Type} {c : Char} {cs : List Char}
    {k : List Char → Option α} {a : α} (h : litCh c cs k = some a) :
    ∃ rest, k rest = some a ∧ rest.length + 1 = cs.length := by
  match cs with
  | [] => simp [litCh] at h
  | d :: rest =>
    simp only [litCh] at h
    split at h
    · exact ⟨rest, h, by simp⟩
    · exact absurd h (by simp)

/-- A successful `numField` hands its continuation a remainder one or
two characters shorter. -/
theorem numField_bound {α : Type} {lo hi : Nat} {cs : List Char}
    {k : Nat → List Char → Option α} {a : α}
    (h : numField lo hi cs k = some a) :
    ∃ n rest, k n rest = some a ∧
      (rest.length + 2 = cs.length ∨ rest.length + 1 = cs.length) := by
  match cs with
  | [] => simp [numField] at h
  | [c1] =>
    simp only [numField] at h
    split at h
    · exact ⟨_, [], h, by simp⟩
    · exact absurd h (by simp)
  | c1 :: c2 :: rest =>
    simp only [numField] at h
    rcases (Option.orElse_eq_some _ _ _).1 h with h1 | ⟨_, h1⟩
    · split at h1
      · exact ⟨_, rest, h1, by simp⟩
      · exact absurd h1 (by simp)
    · split at h1
      · exact ⟨_, c2 :: rest, h1, by simp⟩
      · exact absurd h1 (by simp)

/-- A string the datetime format accepts has at least 14 characters. -/
theorem strptimeDateTime_length {s : String} {v : DateTimeV}
    (h : strptimeDateTime s = some v) : 14 ≤ s.data.length := by
  unfold strptimeDateTime at h
  obtain ⟨y, r1, h, e1⟩ := num4_bound h
  obtain ⟨r2, h, e2⟩ := litCh_bound h
  obtain ⟨m, r3, h, e3⟩ := numField_bound h
  obtain ⟨r4, h, e4⟩ := litCh_bound h
  obtain ⟨d, r5, h, e5⟩ := numField_bound h
  obtain ⟨r6, h, e6⟩ := litCh_bound h
  obtain ⟨hh, r7, h, e7⟩ := numField_bound h
  obtain ⟨r8, h, e8⟩ := litCh_bound h
  obtain ⟨mm, r9, h, e9⟩ := numField_bound h
  obtain ⟨r10, h, e10⟩ := litCh_bound h
  obtain ⟨ss, r11, h, e11⟩ := numField_bound h
  split at h
  · rename_i hcond
    have : r11.length = 0 := by
      have := hcond
      simp only [Bool.and_eq_true, List.isEmpty_iff] at this
      simp [this.1.1]
    omega
  · exact absurd h (by simp)

/-- A string the date-only format accepts has at most 10 characters. -/
theorem strptimeDate_length {s : String} {v : DateV}
    (h : strptimeDate s = some v) : s.data.length ≤ 10 := by
  unfold strptimeDate at h
  obtain ⟨y, r1, h, e1⟩ := num4_bound h
  obtain ⟨r2, h, e2⟩ := litCh_bound h
  obtain ⟨m, r3, h, e3⟩ := numField_bound h
  obtain ⟨r4, h, e4⟩ := litCh_bound h
  obtain ⟨d, r5, h, e5⟩ := numField_bound h
  split at h
  · rename_i hcond
    have : r5.length = 0 := by
      have := hcond
      simp only [Bool.and_eq_true, List.isEmpty_iff] at this
      simp [this.1.1]
    omega
  · exact absurd h (by simp)

/-- C6 amended: a date column is coerced with the separate fixed
date-only format `%Y-%m-%d` (then truncated to a calendar date, which is
the identity on what the date format parses), not with the datetime
format: any literal the datetime format accepts is rejected for a date
column, and conversely any literal the date format accepts is rejected
for a datetime column. -/
theorem c6_date_format_separate :
    (∀ (f : FieldRef) (s : String) (v : DateTimeV), f.attr = .column .dateT →
      strptimeDateTime s = some v →
      parseValue f s = .error (.valueError s)) ∧
    (∀ (f : FieldRef) (s : String) (v : DateV), f.attr = .column .dateTimeT →
      strptimeDate s = some v →
      parseValue f s = .error (.valueError s)) ∧
    (∀ (f : FieldRef) (s : String) (v : DateV), f.attr = .column .dateT →
      strptimeDate s = some v →
      parseValue f s = .ok (.date v)) := by
  refine ⟨?_, ?_, ?_⟩
  · intro f s v hattr hdt
    have h14 := strptimeDateTime_length hdt
    have hnone : strptimeDate s = none := by
      cases hd : strptimeDate s with
      | none => rfl
      | some w =>
        have h10 := strptimeDate_length hd
        omega
    simp [parseValue, hattr, hnone]
  · intro f s v hattr hdate
    have h10 := strptimeDate_length hdate
    have hnone : strptimeDateTime s = none := by
      cases hd : strptimeDateTime s with
      | none => rfl
      | some w =>
        have h14 := strptimeDateTime_length hd
        omega
    simp [parseValue, hattr, hnone]
  · intro f s v hattr hdate
    simp [parseValue, hattr, hdate]

/-- C6 witness: the amended theorem's three branches at the literals
`2021-06-15T12:30:00` (datetime format) and `2021-06-15` (date
format) against `User.start_date` (a date column) and `User.created` (a
datetime column). -/
theorem c6_date_format_separate_witness :
    parseValue ⟨.base .user, "start_date", .column .dateT⟩
        "2021-06-15T12:30:00" = .error (.valueError "2021-06-15T12:30:00") ∧
    parseValue ⟨.base .user, "created", .column .dateTimeT⟩
        "2021-06-15" = .error (.valueError "2021-06-15") ∧
    parseValue ⟨.base .user, "start_date", .column .dateT⟩
        "2021-06-15" = .ok (.date ⟨2021, 6, 15⟩) := by
  refine ⟨?_, ?_, ?_⟩
  · exact c6_date_format_separate.1 ⟨.base .user, "start_date", .column .dateT⟩
      "2021-06-15T12:30:00" ⟨2021, 6, 15, 12, 30, 0⟩ rfl (by rfl)
  · exact c6_date_format_separate.2.1 ⟨.base .user, "created", .column .dateTimeT⟩
      "2021-06-15" ⟨2021, 6, 15⟩ rfl (by rfl)
  · exact c6_date_format_separate.2.2 ⟨.base .user, "start_date", .column .dateT⟩
      "2021-06-15" ⟨2021, 6, 15⟩ rfl (by rfl)


/-! ## The flat-scan simulation and the heads invariant -/

theorem refScan_cons (e : EntityName) (r : RefSt) (c : Char) (rest : List Char) :
    refScan e r (c :: rest) =
      match classify r.inQuotes r.ff r.prevRev c rest with
      | .quoteToggle =>
        refScan e { r with
          inQuotes := if r.inQuotes.isSome then none else some c
          exprStr := r.exprStr ++ [c]
          prevRev := c :: r.prevRev } rest
      | .openFunc =>
        refScan e { r with
          ff := true
          exprStr := r.exprStr ++ [c]
          prevRev := c :: r.prevRev } rest
      | .openGroup =>
        refScan e { r with
          ff := false
          pending := r.exprStr :: r.pending
          exprStr := []
          prevRev := c :: r.prevRev } rest
      | .closeFunc =>
        refScan e { r with
          ff := false
          exprStr := r.exprStr ++ [c]
          prevRev := c :: r.prevRev } rest
      | .closeGroup => do
        let r1 ← refClose e r
        match r1.pending with
        | [] => .ok .early
        | p :: pend2 =>
          refScan e { r1 with
            pending := pend2
            exprStr := p
            inQuotes := none
            ff := false
            prevRev := c :: r1.prevRev } rest
      | .andTok =>
        match rest with
        | _ :: _ :: _ :: _ :: rest4 => do
          let r1 ← refClose e r
          refScan e { r1 with
            prevRev := (" and ".data.reverse) ++ r1.prevRev } rest4
        | _ => .error .internal
      | .orTok =>
        match rest with
        | _ :: _ :: _ :: rest3 => do
          let r1 ← refClose e r
          refScan e { r1 with
            prevRev := (" or ".data.reverse) ++ r1.prevRev } rest3
        | _ => .error .internal
      | .plain =>
        refScan e { r with
          exprStr := r.exprStr ++ [c]
          prevRev := c :: r.prevRev } rest := by
  match rest with
  | [] => simp only [refScan]
  | [a] => simp only [refScan]
  | [a, b] => simp only [refScan]
  | [a, b, d] => simp only [refScan]
  | a :: b :: d :: f :: tail => simp only [refScan]

theorem setLastSegments_ne_nil (l child : List Segment) (h : l ≠ []) :
    setLastSegments l child ≠ [] := by
  match l with
  | [] => exact absurd rfl h
  | [s] => simp [setLastSegments]
  | s :: t :: ts => simp [setLastSegments]

theorem setLastSegments_headD_depth (l child : List Segment) :
    ((setLastSegments l child).headD segDefault).depth =
      ((l.headD segDefault)).depth := by
  match l with
  | [] => rfl
  | [s] => rfl
  | s :: t :: ts => rfl

theorem headD_append_segments (l1 l2 : List Segment) (d : Segment)
    (h : l1 ≠ []) : ((l1 ++ l2).headD d) = l1.headD d := by
  match l1 with
  | [] => exact absurd rfl h
  | s :: t => rfl

theorem classify_closeGroup_inv {iq : Option Char} {ff : Bool}
    {pr : List Char} {c : Char} {rest : List Char}
    (h : classify iq ff pr c rest = .closeGroup) :
    iq = none ∧ ff = false := by
  match iq, h with
  | some a, h =>
    by_cases hac : a = c
    · simp [classify, hac] at h
    · have hq : ¬((some a = some c) ∨
          ((some a : Option Char) = none ∧ (c = '\'' ∨ c = '"'))) := by
        simp [hac]
      simp [classify, hq] at h
      split at h <;> cases h
  | none, h =>
    by_cases hq : c = '\'' ∨ c = '"'
    · simp [classify, hq] at h
    by_cases hop : c = '('
    · by_cases hfun : isFilterFunction pr <;> simp [classify, hq, hop, hfun] at h
    by_cases hcl : c = ')'
    · by_cases hfv : ff = true
      · simp [classify, hq, hop, hcl, hfv] at h
      · exact ⟨rfl, Bool.eq_false_iff.mpr hfv⟩
    by_cases h4 : (c :: rest).take 5 = " and ".data <;>
      by_cases h5 : (c :: rest).take 4 = " or ".data <;>
        simp [classify, hq, hop, hcl, h4, h5] at h
    all_goals repeat (first | cases h | split at h)

theorem align_init (q : QueryState) : Align (initRefSt q) (initScanSt q) := by
  refine ⟨rfl, rfl, rfl, rfl, rfl, rfl, rfl, by simp [initScanSt], rfl⟩

theorem scanAgrees_nil (e : EntityName) (r : RefSt) (st : ScanSt)
    (hA : Align r st) : ScanRel (refScan e r []) (scanIter e st []) := by
  obtain ⟨hiq, hff, hex, hpv, hq, hpend, hsinv, hsne, hsdep⟩ := hA
  simp only [List.headD_eq_head?] at hsdep
  cases hqs : st.inQuotes with
  | some a =>
    rw [hqs] at hiq
    simp [ScanRel, refScan, scanIter, finishScan, validateCleanSegment, hiq, hqs]
  | none =>
    rw [hqs] at hiq
    cases hffv : st.filterFunction with
    | true =>
      rw [hffv] at hff
      simp [ScanRel, refScan, scanIter, finishScan, validateCleanSegment, hiq,
        hqs, hff, hffv]
    | false =>
      rw [hffv] at hff
      have hvc : validateCleanSegment st = .ok () := by
        simp [validateCleanSegment, hqs, hffv, hsdep]
      cases hexpr : st.exprStr with
      | nil =>
        rw [hexpr] at hex
        cases hstk : st.stack with
        | nil =>
          rw [hstk] at hpend
          simp only [List.map_nil] at hpend
          simp [ScanRel, refScan, scanIter, finishScan, closeExpression, refClose,
            finishFrames, hvc, hiq, hff, hex, hexpr, hpend, hstk]
        | cons ctx stack2 =>
          rw [hstk] at hpend hsinv
          simp only [StackInv] at hsinv
          obtain ⟨hcne, hcdep, _⟩ := hsinv
          have hdep2 : ((setLastSegments ctx.segments st.segments).headD
              segDefault).depth = st.parenDepth - 1 := by
            rw [setLastSegments_headD_depth, hcdep]
          simp only [List.headD_eq_head?] at hdep2
          have hneq : st.parenDepth ≠ st.parenDepth - 1 := by omega
          simp [ScanRel, refScan, scanIter, finishScan, closeExpression, refClose,
            finishFrames, hvc, hiq, hff, hex, hexpr, hpend, hstk, hdep2, hneq]
      | cons c0 tl =>
        rw [hexpr] at hex
        cases hpe : parseExpression st.q e ⟨c0 :: tl⟩ with
        | error perr =>
          simp [ScanRel, refScan, scanIter, finishScan, closeExpression, refClose,
            hvc, hiq, hff, hex, hq, hexpr, hpe]
        | ok pq =>
          obtain ⟨p0, q2⟩ := pq
          cases hstk : st.stack with
          | nil =>
            rw [hstk] at hpend
            simp only [List.map_nil] at hpend
            simp [ScanRel, refScan, scanIter, finishScan, closeExpression, refClose,
              finishFrames, hvc, hiq, hff, hex, hq, hexpr, hpe, hpend, hstk]
          | cons ctx stack2 =>
            rw [hstk] at hpend hsinv
            simp only [StackInv] at hsinv
            obtain ⟨hcne, hcdep, _⟩ := hsinv
            have hdep2 : ((setLastSegments ctx.segments (st.segments ++
                [leafSegment st.parenDepth st.lastJunction p0 ⟨c0 :: tl⟩])).headD
                segDefault).depth = st.parenDepth - 1 := by
              rw [setLastSegments_headD_depth, hcdep]
            simp only [List.headD_eq_head?] at hdep2
            have hneq : st.parenDepth ≠ st.parenDepth - 1 := by omega
            simp [ScanRel, refScan, scanIter, finishScan, closeExpression, refClose,
              finishFrames, hvc, hiq, hff, hex, hq, hexpr, hpe, hpend, hstk,
              hdep2, hneq]

theorem validateCleanSegment_ok (st : ScanSt) (h1 : st.inQuotes = none)
    (h2 : st.filterFunction = false)
    (h3 : (st.segments.headD segDefault).depth = st.parenDepth) :
    validateCleanSegment st = .ok () := by
  unfold validateCleanSegment
  rw [h1, h2, h3]
  simp

theorem scanAgrees (e : EntityName) :
    ∀ (n : Nat) (cs : List Char), cs.length ≤ n →
    ∀ (r : RefSt) (st : ScanSt), Align r st →
    ScanRel (refScan e r cs) (scanIter e st cs) := by
  intro n
  induction n with
  | zero =>
    intro cs hlen r st hA
    have hcs : cs = [] := List.length_eq_zero.mp (Nat.le_zero.mp hlen)
    subst hcs
    exact scanAgrees_nil e r st hA
  | succ n ih =>
    intro cs hlen r st hA
    match cs with
    | [] => exact scanAgrees_nil e r st hA
    | c :: rest =>
      have hlen2 : rest.length ≤ n := by
        simp only [List.length_cons] at hlen
        omega
      obtain ⟨hiq, hff, hex, hpv, hq, hpend, hsinv, hsne, hsdep⟩ := hA
      have hclsEq : classify r.inQuotes r.ff r.prevRev c rest =
          classify st.inQuotes st.filterFunction st.prevRev c rest := by
        rw [hiq, hff, hpv]
      rw [refScan_cons, scanIter_cons, hclsEq]
      cases hcls : classify st.inQuotes st.filterFunction st.prevRev c rest with
      | quoteToggle =>
        exact ih rest hlen2 _ _
          ⟨by rw [hiq], hff, by rw [hex], by rw [hpv], hq, hpend, hsinv, hsne, hsdep⟩
      | openFunc =>
        exact ih rest hlen2 _ _
          ⟨hiq, rfl, by rw [hex], by rw [hpv], hq, hpend, hsinv, hsne, hsdep⟩
      | closeFunc =>
        exact ih rest hlen2 _ _
          ⟨hiq, rfl, by rw [hex], by rw [hpv], hq, hpend, hsinv, hsne, hsdep⟩
      | plain =>
        exact ih rest hlen2 _ _
          ⟨hiq, hff, by rw [hex], by rw [hpv], hq, hpend, hsinv, hsne, hsdep⟩
      | openGroup =>
        refine ih rest hlen2 _ _ ?_
        refine ⟨hiq, rfl, rfl, by rw [hpv], hq, by simp [hex, hpend], ?_, by simp, rfl⟩
        show (if (st.segments.getLastD segDefault).segments.isEmpty then st.segments
            else st.segments ++ [headerSegment st.parenDepth st.lastJunction]) ≠ [] ∧
          (((if (st.segments.getLastD segDefault).segments.isEmpty then st.segments
            else st.segments ++ [headerSegment st.parenDepth st.lastJunction]).headD
              segDefault)).depth = st.parenDepth + 1 - 1 ∧
          StackInv (st.parenDepth + 1 - 1) st.stack
        have h1 : st.parenDepth + 1 - 1 = st.parenDepth := by omega
        rw [h1]
        refine ⟨?_, ?_, hsinv⟩
        · split
          · exact hsne
          · simp
        · split
          · exact hsdep
          · rw [headD_append_segments _ _ _ hsne]
            exact hsdep
      | closeGroup =>
        obtain ⟨hiqn, hffn⟩ := classify_closeGroup_inv hcls
        cases hexpr : st.exprStr with
        | nil =>
          have hrc : refClose e r = .ok r := by
            simp [refClose, hex, hexpr]
          have hce : closeExpression e st = .ok { st with exprStr := [] } := by
            simp [closeExpression, hexpr]
          rw [hrc, hce]
          simp only [exceptBindOk]
          have hvc : validateCleanSegment { st with exprStr := ([] : List Char) } =
              .ok () := validateCleanSegment_ok _ hiqn hffn hsdep
          rw [hvc]
          simp only [exceptBindOk]
          cases hstk : st.stack with
          | nil =>
            rw [hstk] at hpend
            simp only [List.map_nil] at hpend
            rw [hpend]
            simp [ScanRel]
          | cons ctx stack2 =>
            rw [hstk] at hpend hsinv
            simp only [List.map_cons] at hpend
            rw [hpend]
            refine ih rest hlen2 _ _ ?_
            refine ⟨rfl, rfl, rfl, by rw [hpv], hq, rfl, hsinv.2.2, ?_, ?_⟩
            · exact setLastSegments_ne_nil _ _ hsinv.1
            · rw [setLastSegments_headD_depth]
              exact hsinv.2.1
        | cons c0 tl =>
          cases hpe : parseExpression st.q e ⟨c0 :: tl⟩ with
          | error perr =>
            have hrc : refClose e r = .error perr := by
              simp [refClose, hex, hq, hexpr, hpe]
            have hce : closeExpression e st = .error perr := by
              simp [closeExpression, hexpr, hpe]
            rw [hrc, hce]
            simp [ScanRel]
          | ok pq =>
            obtain ⟨p0, q2⟩ := pq
            have hrc : refClose e r = .ok { r with exprStr := [], q := q2 } := by
              simp [refClose, hex, hq, hexpr, hpe]
            have hce : closeExpression e st = .ok { st with
                segments := st.segments ++
                  [leafSegment st.parenDepth st.lastJunction p0 ⟨c0 :: tl⟩]
                exprStr := []
                q := q2 } := by
              simp [closeExpression, hexpr, hpe]
            rw [hrc, hce]
            simp only [exceptBindOk]
            have hd1 : ((st.segments ++
                [leafSegment st.parenDepth st.lastJunction p0 ⟨c0 :: tl⟩]).headD
                  segDefault).depth = st.parenDepth := by
              rw [headD_append_segments _ _ _ hsne]
              exact hsdep
            have hvc : validateCleanSegment { st with
                segments := st.segments ++
                  [leafSegment st.parenDepth st.lastJunction p0 ⟨c0 :: tl⟩]
                exprStr := ([] : List Char)
                q := q2 } = .ok () := validateCleanSegment_ok _ hiqn hffn hd1
            rw [hvc]
            simp only [exceptBindOk]
            cases hstk : st.stack with
            | nil =>
              rw [hstk] at hpend
              simp only [List.map_nil] at hpend
              rw [hpend]
              simp [ScanRel]
            | cons ctx stack2 =>
              rw [hstk] at hpend hsinv
              simp only [List.map_cons] at hpend
              rw [hpend]
              refine ih rest hlen2 _ _ ?_
              refine ⟨rfl, rfl, rfl, by rw [hpv], rfl, rfl, hsinv.2.2, ?_, ?_⟩
              · exact setLastSegments_ne_nil _ _ hsinv.1
              · rw [setLastSegments_headD_depth]
                exact hsinv.2.1
      | andTok =>
        rcases rest with _ | ⟨r1c, _ | ⟨r2c, _ | ⟨r3c, _ | ⟨r4c, rest4⟩⟩⟩⟩
        · simp [ScanRel]
        · simp [ScanRel]
        · simp [ScanRel]
        · simp [ScanRel]
        · have hlen4 : rest4.length ≤ n := by
            simp only [List.length_cons] at hlen2
            omega
          cases hexpr : st.exprStr with
          | nil =>
            have hrc : refClose e r = .ok r := by
              simp [refClose, hex, hexpr]
            have hce : closeExpression e st = .ok { st with exprStr := [] } := by
              simp [closeExpression, hexpr]
            rw [hrc, hce]
            simp only [exceptBindOk]
            exact ih rest4 hlen4 _ _
              ⟨hiq, hff, by rw [hex, hexpr], by rw [hpv], hq, hpend, hsinv, hsne, hsdep⟩
          | cons c0 tl =>
            cases hpe : parseExpression st.q e ⟨c0 :: tl⟩ with
            | error perr =>
              have hrc : refClose e r = .error perr := by
                simp [refClose, hex, hq, hexpr, hpe]
              have hce : closeExpression e st = .error perr := by
                simp [closeExpression, hexpr, hpe]
              rw [hrc, hce]
              simp [ScanRel]
            | ok pq =>
              obtain ⟨p0, q2⟩ := pq
              have hrc : refClose e r = .ok { r with exprStr := [], q := q2 } := by
                simp [refClose, hex, hq, hexpr, hpe]
              have hce : closeExpression e st = .ok { st with
                  segments := st.segments ++
                    [leafSegment st.parenDepth st.lastJunction p0 ⟨c0 :: tl⟩]
                  exprStr := []
                  q := q2 } := by
                simp [closeExpression, hexpr, hpe]
              rw [hrc, hce]
              simp only [exceptBindOk]
              refine ih rest4 hlen4 _ _ ?_
              refine ⟨hiq, hff, rfl, by rw [hpv], rfl, hpend, hsinv, by simp, ?_⟩
              rw [headD_append_segments _ _ _ hsne]
              exact hsdep
      | orTok =>
        rcases rest with _ | ⟨r1c, _ | ⟨r2c, _ | ⟨r3c, rest3⟩⟩⟩
        · simp [ScanRel]
        · simp [ScanRel]
        · simp [ScanRel]
        · have hlen3 : rest3.length ≤ n := by
            simp only [List.length_cons] at hlen2
            omega
          cases hexpr : st.exprStr with
          | nil =>
            have hrc : refClose e r = .ok r := by
              simp [refClose, hex, hexpr]
            have hce : closeExpression e st = .ok { st with exprStr := [] } := by
              simp [closeExpression, hexpr]
            rw [hrc, hce]
            simp only [exceptBindOk]
            exact ih rest3 hlen3 _ _
              ⟨hiq, hff, by rw [hex, hexpr], by rw [hpv], hq, hpend, hsinv, hsne, hsdep⟩
          | cons c0 tl =>
            cases hpe : parseExpression st.q e ⟨c0 :: tl⟩ with
            | error perr =>
              have hrc : refClose e r = .error perr := by
                simp [refClose, hex, hq, hexpr, hpe]
              have hce : closeExpression e st = .error perr := by
                simp [closeExpression, hexpr, hpe]
              rw [hrc, hce]
              simp [ScanRel]
            | ok pq =>
              obtain ⟨p0, q2⟩ := pq
              have hrc : refClose e r = .ok { r with exprStr := [], q := q2 } := by
                simp [refClose, hex, hq, hexpr, hpe]
              have hce : closeExpression e st = .ok { st with
                  segments := st.segments ++
                    [leafSegment st.parenDepth st.lastJunction p0 ⟨c0 :: tl⟩]
                  exprStr := []
                  q := q2 } := by
                simp [closeExpression, hexpr, hpe]
              rw [hrc, hce]
              simp only [exceptBindOk]
              refine ih rest3 hlen3 _ _ ?_
              refine ⟨hiq, hff, rfl, by rw [hpv], rfl, hpend, hsinv, by simp, ?_⟩
              rw [headD_append_segments _ _ _ hsne]
              exact hsdep

theorem restOkB_append (l1 l2 : List Segment) :
    restOkB (l1 ++ l2) = (restOkB l1 && restOkB l2) := by
  induction l1 with
  | nil => simp [restOkB]
  | cons s t ih => simp [restOkB, ih, Bool.and_assoc]

theorem headsOkB_append (l1 l2 : List Segment) (h1 : l1 ≠ [])
    (h2 : headsOkB l1 = true) (h3 : restOkB l2 = true) :
    headsOkB (l1 ++ l2) = true := by
  match l1 with
  | [] => exact absurd rfl h1
  | a :: t =>
    simp only [headsOkB, Bool.and_eq_true] at h2
    simp [headsOkB, restOkB_append, h2.1.1, h2.1.2, h2.2, h3]

theorem setLast_restOk (child : List Segment) (hc : headsOkB child = true) :
    ∀ l, restOkB l = true → restOkB (setLastSegments l child) = true
  | [], h => h
  | [s], _ => by
    simp only [setLastSegments, restOkB, segHeadsOk, Bool.and_eq_true]
    exact ⟨hc, trivial⟩
  | s :: t :: ts, h => by
    simp only [restOkB, Bool.and_eq_true] at h
    simp only [setLastSegments, restOkB, Bool.and_eq_true]
    refine ⟨h.1, setLast_restOk child hc (t :: ts) ?_⟩
    simp only [restOkB, Bool.and_eq_true]
    exact h.2

theorem setLast_headsOk (child : List Segment) (hc : headsOkB child = true) :
    ∀ l, l ≠ [] → headsOkB l = true → headsOkB (setLastSegments l child) = true
  | [], h, _ => absurd rfl h
  | [s], _, h => by
    simp only [headsOkB, restOkB, segHeadsOk, Bool.and_eq_true] at h
    simp only [setLastSegments, headsOkB, restOkB, segHeadsOk, Bool.and_eq_true]
    exact ⟨⟨h.1.1, hc⟩, trivial⟩
  | s :: t :: ts, _, h => by
    simp only [headsOkB, Bool.and_eq_true] at h
    simp only [setLastSegments, headsOkB, Bool.and_eq_true]
    refine ⟨h.1, setLast_restOk child hc (t :: ts) ?_⟩
    exact h.2

theorem closeExpression_shape (e : EntityName) (st st' : ScanSt)
    (h : closeExpression e st = .ok st') :
    (st'.segments = st.segments ∨
      ∃ p s, st'.segments = st.segments ++
        [leafSegment st.parenDepth st.lastJunction p s]) ∧
    st'.stack = st.stack ∧ st'.parenDepth = st.parenDepth := by
  unfold closeExpression at h
  split at h
  · cases h
    exact ⟨.inl rfl, rfl, rfl⟩
  · cases hpe : parseExpression st.q e ⟨st.exprStr⟩ with
    | error perr => rw [hpe] at h; cases h
    | ok pq =>
      rw [hpe] at h
      simp only [exceptBindOk] at h
      cases h
      exact ⟨.inr ⟨pq.1, ⟨st.exprStr⟩, rfl⟩, rfl, rfl⟩

theorem finishFrames_headsOk (e : EntityName) :
    ∀ (stack : List FrameCtx) (pd : Int) (q : QueryState) (segs : List Segment),
    segs ≠ [] → headsOkB segs = true →
    (∀ ctx ∈ stack, ctx.segments ≠ [] ∧ headsOkB ctx.segments = true) →
    ∀ out q2, finishFrames e pd q stack segs = .ok (out, q2) →
    headsOkB out = true := by
  intro stack
  induction stack with
  | nil =>
    intro pd q segs hne hok hstk out q2 hf
    simp only [finishFrames] at hf
    cases hf
    exact hok
  | cons ctx stack2 ih =>
    intro pd q segs hne hok hstk out q2 hf
    have hctx := hstk ctx (by simp)
    have hrest : ∀ c2 ∈ stack2, c2.segments ≠ [] ∧ headsOkB c2.segments = true :=
      fun c2 hc2 => hstk c2 (by simp [hc2])
    simp only [finishFrames] at hf
    split at hf
    · cases hf
    · split at hf
      · exact ih pd q _ (setLastSegments_ne_nil _ _ hctx.1)
          (setLast_headsOk _ hok _ hctx.1 hctx.2) hrest out q2 hf
      · cases hpe : parseExpression q e ⟨ctx.exprStr⟩ with
        | error perr => rw [hpe] at hf; cases hf
        | ok pq =>
          rw [hpe] at hf
          simp only [exceptBindOk] at hf
          have hps : headsOkB (setLastSegments ctx.segments segs ++
              [leafSegment pd ctx.lastJunction pq.1 ⟨ctx.exprStr⟩]) = true :=
            headsOkB_append _ _ (setLastSegments_ne_nil _ _ hctx.1)
              (setLast_headsOk _ hok _ hctx.1 hctx.2) rfl
          exact ih pd pq.2 _ (by simp) hps hrest out q2 hf

theorem scanIter_headsOk_nil (e : EntityName) (st : ScanSt) (hI : SegInv st) :
    ∀ out q2, scanIter e st [] = .ok (out, q2) → headsOkB out = true := by
  intro out q2 hs
  obtain ⟨hne, hok, hstk⟩ := hI
  simp only [scanIter, finishScan] at hs
  cases hv : validateCleanSegment st with
  | error verr => rw [hv] at hs; cases hs
  | ok u =>
    rw [hv] at hs
    simp only [exceptBindOk] at hs
    cases hce : closeExpression e st with
    | error cerr => rw [hce] at hs; cases hs
    | ok st2 =>
      rw [hce] at hs
      simp only [exceptBindOk] at hs
      obtain ⟨hsegs, hstk2, _⟩ := closeExpression_shape e st st2 hce
      have hne2 : st2.segments ≠ [] := by
        rcases hsegs with h | ⟨p, s2, h⟩ <;> rw [h] <;> simp [hne]
      have hok2 : headsOkB st2.segments = true := by
        rcases hsegs with h | ⟨p, s2, h⟩
        · rw [h]; exact hok
        · rw [h]; exact headsOkB_append _ _ hne hok rfl
      rw [hstk2] at hs
      exact finishFrames_headsOk e st.stack st2.parenDepth st2.q st2.segments
        hne2 hok2 hstk out q2 hs

theorem scanIter_headsOk (e : EntityName) :
    ∀ (n : Nat) (cs : List Char), cs.length ≤ n →
    ∀ st : ScanSt, SegInv st →
    ∀ out q2, scanIter e st cs = .ok (out, q2) → headsOkB out = true := by
  intro n
  induction n with
  | zero =>
    intro cs hlen st hI out q2 hs
    have hcs : cs = [] := List.length_eq_zero.mp (Nat.le_zero.mp hlen)
    subst hcs
    exact scanIter_headsOk_nil e st hI out q2 hs
  | succ n ih =>
    intro cs hlen st hI out q2 hs
    match cs with
    | [] =>
      exact scanIter_headsOk_nil e st hI out q2 hs
    | c :: rest =>
      have hlen2 : rest.length ≤ n := by
        simp only [List.length_cons] at hlen
        omega
      obtain ⟨hne, hok, hstk⟩ := hI
      rw [scanIter_cons] at hs
      cases hcls : classify st.inQuotes st.filterFunction st.prevRev c rest <;>
        rw [hcls] at hs
      case quoteToggle =>
        refine ih rest hlen2 _ ?_ out q2 hs
        exact ⟨hne, hok, hstk⟩
      case openFunc =>
        refine ih rest hlen2 _ ?_ out q2 hs
        exact ⟨hne, hok, hstk⟩
      case closeFunc =>
        refine ih rest hlen2 _ ?_ out q2 hs
        exact ⟨hne, hok, hstk⟩
      case plain =>
        refine ih rest hlen2 _ ?_ out q2 hs
        exact ⟨hne, hok, hstk⟩
      case openGroup =>
        refine ih rest hlen2 _ ?_ out q2 hs
        refine ⟨by simp, rfl, ?_⟩
        intro ctx hctx
        simp only [List.mem_cons] at hctx
        rcases hctx with h | h
        · subst h
          constructor
          · dsimp only
            split
            · exact hne
            · simp
          · dsimp only
            split
            · exact hok
            · exact headsOkB_append _ _ hne hok rfl
        · exact hstk ctx h
      case closeGroup =>
        cases hce : closeExpression e st with
        | error cerr => rw [hce] at hs; cases hs
        | ok st2 =>
          rw [hce] at hs
          simp only [exceptBindOk] at hs
          obtain ⟨hsegs, hstk2, _⟩ := closeExpression_shape e st st2 hce
          have hne2 : st2.segments ≠ [] := by
            rcases hsegs with h | ⟨p, s2, h⟩ <;> rw [h] <;> simp [hne]
          have hok2 : headsOkB st2.segments = true := by
            rcases hsegs with h | ⟨p, s2, h⟩
            · rw [h]; exact hok
            · rw [h]; exact headsOkB_append _ _ hne hok rfl
          cases hv : validateCleanSegment st2 with
          | error verr => rw [hv] at hs; cases hs
          | ok u =>
            rw [hv] at hs
            simp only [exceptBindOk] at hs
            rw [hstk2] at hs
            cases hstkc : st.stack with
            | nil =>
              rw [hstkc] at hs
              cases hs
              exact hok2
            | cons ctx stack2 =>
              rw [hstkc] at hs
              have hctx := hstk ctx (by simp [hstkc])
              refine ih rest hlen2 _ ?_ out q2 hs
              refine ⟨?_, ?_, ?_⟩
              · exact setLastSegments_ne_nil _ _ hctx.1
              · exact setLast_headsOk _ hok2 _ hctx.1 hctx.2
              · intro c2 hc2
                exact hstk c2 (by simp [hstkc, hc2])
      case andTok =>
        rcases rest with _ | ⟨r1c, _ | ⟨r2c, _ | ⟨r3c, _ | ⟨r4c, rest4⟩⟩⟩⟩
        · cases hs
        · cases hs
        · cases hs
        · cases hs
        · have hlen4 : rest4.length ≤ n := by
            simp only [List.length_cons] at hlen2
            omega
          cases hce : closeExpression e st with
          | error cerr => rw [hce] at hs; cases hs
          | ok st2 =>
            rw [hce] at hs
            simp only [exceptBindOk] at hs
            obtain ⟨hsegs, hstk2, _⟩ := closeExpression_shape e st st2 hce
            have hne2 : st2.segments ≠ [] := by
              rcases hsegs with h | ⟨p, s2, h⟩ <;> rw [h] <;> simp [hne]
            have hok2 : headsOkB st2.segments = true := by
              rcases hsegs with h | ⟨p, s2, h⟩
              · rw [h]; exact hok
              · rw [h]; exact headsOkB_append _ _ hne hok rfl
            refine ih rest4 hlen4 _ ?_ out q2 hs
            refine ⟨hne2, hok2, ?_⟩
            intro c2 hc2
            rw [hstk2] at hc2
            exact hstk c2 hc2
      case orTok =>
        rcases rest with _ | ⟨r1c, _ | ⟨r2c, _ | ⟨r3c, rest3⟩⟩⟩
        · cases hs
        · cases hs
        · cases hs
        · have hlen3 : rest3.length ≤ n := by
            simp only [List.length_cons] at hlen2
            omega
          cases hce : closeExpression e st with
          | error cerr => rw [hce] at hs; cases hs
          | ok st2 =>
            rw [hce] at hs
            simp only [exceptBindOk] at hs
            obtain ⟨hsegs, hstk2, _⟩ := closeExpression_shape e st st2 hce
            have hne2 : st2.segments ≠ [] := by
              rcases hsegs with h | ⟨p, s2, h⟩ <;> rw [h] <;> simp [hne]
            have hok2 : headsOkB st2.segments = true := by
              rcases hsegs with h | ⟨p, s2, h⟩
              · rw [h]; exact hok
              · rw [h]; exact headsOkB_append _ _ hne hok rfl
            refine ih rest3 hlen3 _ ?_ out q2 hs
            refine ⟨hne2, hok2, ?_⟩
            intro c2 hc2
            rw [hstk2] at hc2
            exact hstk c2 hc2

/-! ## C2 — well-formed filters succeed -/

/-- C2 counterexample: the filter string `id eq 1 and id eq 2 or id eq 3`
is well-formed in the claim's sense (balanced parentheses, closed quotes,
every leaf clause recognized — witnessed by the clean flat scan), yet the
list passed to `query.filter(*filters)` has length two, not one: mixing
`and` and `or` at one nesting level flushes the completed `and_` group
into its own root predicate. -/
theorem c2_counterexample :
    wfFilter .user "id eq 1 and id eq 2 or id eq 3" ∧
    (appliedFilters .user "id eq 1 and id eq 2 or id eq 3").map List.length =
      .ok 2 := ⟨rfl, rfl⟩

/-- C2 (amended): for every filter string accepted cleanly by the flat
reference scan (balanced grouping parentheses, closed quotes, no dangling
function parenthesis, no early stop, every leaf recognized), query
building succeeds with no error.  (The "exactly one root predicate" half
of the original claim is refuted by `c2_counterexample`.) -/
theorem c2_wf_success (e : EntityName) (s : String) (h : wfFilter e s) :
    ∃ q2, filterParse e {} s = .ok q2 := by
  have hsim := scanAgrees e s.data.length s.data (le_refl _) (initRefSt {})
    (initScanSt {}) (align_init {})
  rw [h] at hsim
  simp only [ScanRel] at hsim
  obtain ⟨⟨segs, q2⟩, hout⟩ := hsim
  refine ⟨{ q2 with filters := q2.filters ++ (buildFilters segs).1 }, ?_⟩
  simp [filterParse, parseSegmentsTop, hout]

/-- Witness for C2 at a concrete well-formed filter string. -/
theorem c2_wf_success_witness :
    ∃ q2, filterParse .user {}
      "logins gt 51 and (note eq null or id in (1,3))" = .ok q2 :=
  c2_wf_success .user _ (by rfl)

/-! ## C3 — segments with children -/

/-- C3 counterexample: parsing `id eq 1 and (id eq 2)` produces a segment
tree in which some segment carries both a leaf expression and non-empty
children — the parenthesized group's children are attached to the leaf
segment of the clause written before the group. -/
theorem c3_counterexample :
    (parseSegmentsTop .user {} "id eq 1 and (id eq 2)").map
      (fun out => out.1.any (fun s => !s.segments.isEmpty && s.expression.isSome)) =
    .ok true := by rfl

/-- C3 (amended): in every segment tree produced by the Segmenter the
first segment of every nesting level is a pure junction header whose
`expression` is `none`, recursively; only a non-first segment can carry
both an expression and children. -/
theorem c3_segment_heads (e : EntityName) (q : QueryState) (s : String)
    (segs : List Segment) (q2 : QueryState)
    (h : parseSegmentsTop e q s = .ok (segs, q2)) :
    headsOkB segs = true :=
  scanIter_headsOk e s.data.length s.data (le_refl _) (initScanSt q)
    ⟨by simp [initScanSt], rfl, by intro ctx hc; simp [initScanSt] at hc⟩ segs q2 h

/-- Witness for C3 on the segment tree of `id eq 1 and (id eq 2)`. -/
theorem c3_segment_heads_witness :
    headsOkB [⟨0, [], some .andJ, none, ""⟩,
      ⟨0, [⟨1, [], some .andJ, none, ""⟩,
           ⟨1, [], none,
            some (.atom (.cmp .eqOp ⟨.base .user, "id", .column .intT⟩ (.str "2"))),
            "id eq 2"⟩],
        none,
        some (.atom (.cmp .eqOp ⟨.base .user, "id", .column .intT⟩ (.str "1"))),
        "id eq 1"⟩] = true :=
  c3_segment_heads .user {} "id eq 1 and (id eq 2)" _ {} (by rfl)

/-! ## C4 — scan error conditions -/

/-- C4 counterexample: `id eq 1)` has net grouping depth `-1` at the end
of the scan, yet segmenting succeeds — a closing parenthesis at depth
zero returns early from `_parse_segments` with no error, silently
discarding the rest of the filter string. -/
theorem c4_counterexample :
    appliedFilters .user "id eq 1)" =
      .ok [.junc .andJ
        [.atom (.cmp .eqOp ⟨.base .user, "id", .column .intT⟩ (.str "1"))]] := by
  rfl

/-- C4 (amended): every error of the flat reference scan — mismatched
quotes when a quoted literal is still open at end of input, mismatched
parentheses when a filter-function parenthesis is pending or a grouping
parenthesis is unclosed — is reproduced verbatim by the segmenter
pipeline.  (A stray closing parenthesis at depth zero is not an error:
see `c4_counterexample`.) -/
theorem c4_scan_errors (e : EntityName) (s : String) (err : Err)
    (h : refScan e (initRefSt {}) s.data = .error err) :
    filterParse e {} s = .error err := by
  have hsim := scanAgrees e s.data.length s.data (le_refl _) (initRefSt {})
    (initScanSt {}) (align_init {})
  rw [h] at hsim
  simp only [ScanRel] at hsim
  simp [filterParse, parseSegmentsTop, hsim]

/-- Witness for C4: an open quote and an unclosed grouping parenthesis
produce the two mismatch errors. -/
theorem c4_scan_errors_witness :
    filterParse .user {} "username eq \"user" =
      .error (.badRequest "Quotes in filter string are mismatched.") ∧
    filterParse .user {} "(logins ge 51" =
      .error (.badRequest "Parentheses in filter string are mismatched.") :=
  ⟨c4_scan_errors .user _ _ (by rfl), c4_scan_errors .user _ _ (by rfl)⟩


end Odata
